import Mathlib

/-
Shallow embedding of the HYDRA-DILIGENSE red-flag detection engine.

Source files embedded:
  - src/lib/diligence/rule-engine.ts  (rule-based analyzer, 12 checks)
  - the LLM-analysis module (chunker, response normalization, analyzeWithLLM)

Conventions of the embedding:
  - A JS string is modelled as `List Char` (named `Text` below); JS
    `.length`, `.slice`, `.substring` become list length / drop / take.
  - JS regexes are embedded as explicit matchers.  Every regex in the source
    is built from literals, `\s*`, `\s+`, `\d+`, `.{0,n}` / `.*` / `.*?`,
    `(?:a|b)` and `x?`; each matcher below reproduces the backtracking order
    of the JS engine (greedy quantifiers try longest first, lazy shortest
    first, alternatives left to right, leftmost match wins, and the
    `g`-flag exec loop resumes at the end of the previous match).
  - `Date.now()`-based ids are nondeterministic; they are modelled by an
    abstract id supply `ids : Nat -> String` applied in creation order.
    `new Date().getFullYear()` is modelled by an explicit `year` parameter.
  - The LLM backend is external; it is modelled by an oracle giving, per
    chunk index, either a thrown exception (`Except.error`) or the parsed
    JSON response shape handed to the normalizer.
-/

abbrev Text := List Char

/-- JS `\s` / `trim` whitespace class (WhiteSpace plus LineTerminator),
by code point: space, tab, LF, VT, FF, CR, NBSP, Ogham space mark, the
U+2000..U+200A range, LS, PS, NNBSP, MMSP, ideographic space, BOM. -/
def isJsWs (c : Char) : Bool :=
  c.toNat == 0x20 || c.toNat == 0x9 || c.toNat == 0xa || c.toNat == 0xb ||
  c.toNat == 0xc || c.toNat == 0xd || c.toNat == 0xa0 || c.toNat == 0x1680 ||
  (0x2000 <= c.toNat && c.toNat <= 0x200a) ||
  c.toNat == 0x2028 || c.toNat == 0x2029 || c.toNat == 0x202f ||
  c.toNat == 0x205f || c.toNat == 0x3000 || c.toNat == 0xfeff

/-- the character class `[A-Za-z0-9]` used by `fuzzyPattern`. -/
def isAsciiAlnum (c : Char) : Bool :=
  (0x41 <= c.toNat && c.toNat <= 0x5a) || (0x61 <= c.toNat && c.toNat <= 0x7a) ||
  (0x30 <= c.toNat && c.toNat <= 0x39)

/-- JS regex `\w` class (word characters, for `\b` boundaries). -/
def isWordChar (c : Char) : Bool := isAsciiAlnum c || c == '_'

/-- JS regex `.` (in non-`s` mode): everything except line terminators
(LF, CR, LS, PS). -/
def notNewline (c : Char) : Bool :=
  !(c.toNat == 0xa || c.toNat == 0xd || c.toNat == 0x2028 || c.toNat == 0x2029)

/-- case-insensitive character comparison (ASCII folding, as the JS `i`
flag performs on the ASCII pattern characters appearing in the source). -/
def eqCI (a b : Char) : Bool := a.toLower == b.toLower

/-- right-trim: drop trailing JS whitespace (second half of `trim()`). -/
def trimRight (l : Text) : Text := (l.reverse.dropWhile isJsWs).reverse

/-- JS `String.prototype.trim`. -/
def jsTrim (l : Text) : Text := trimRight (l.dropWhile isJsWs)

/-- the `'...'` ellipsis marker of `getContext`. -/
def dots : Text := ['.', '.', '.']

/-- rule-engine.ts `getContext`: bounded excerpt around a match span,
trimmed, with ellipsis markers when the window does not touch the
corresponding end of the text. -/
def getContext (text : Text) (start en chars : Nat) : Text :=
  let contextStart := start - chars
  let contextEnd := min text.length (en + chars)
  let context := jsTrim ((text.drop contextStart).take (contextEnd - contextStart))
  (if 0 < contextStart then dots else []) ++ context ++
    (if contextEnd < text.length then dots else [])

/-- the paragraph separator `'\n\n'` of `chunkText`. -/
def sepNN : Text := ['\n', '\n']

/-- JS `text.split('\n\n')` (leftmost separator first, empty pieces kept). -/
def splitNN : Text → List Text
  | [] => [[]]
  | '\n' :: '\n' :: rest => [] :: splitNN rest
  | c :: rest =>
    match splitNN rest with
    | [] => [[c]]
    | h :: t => (c :: h) :: t

/-- JS `chunks.join('\n\n')`: rejoin pieces with the paragraph separator. -/
def joinNN : List Text → Text
  | [] => []
  | [c] => c
  | c :: cs => c ++ sepNN ++ joinNN cs

/-- the paragraph loop of `chunkText`: greedy accumulation of paragraphs
into `curr`, closing a chunk when the next paragraph would overflow the
budget.  Pushes are guarded by JS truthiness (`if (currentChunk)`), so an
empty `curr` is never pushed. -/
def chunkGo (maxChars : Nat) : List Text → Text → List Text → List Text
  | [], curr, chunks => if curr ≠ [] then chunks ++ [curr] else chunks
  | para :: rest, curr, chunks =>
    if maxChars < curr.length + para.length then
      chunkGo maxChars rest para (if curr ≠ [] then chunks ++ [curr] else chunks)
    else
      chunkGo maxChars rest (if curr ≠ [] then curr ++ sepNN ++ para else para) chunks

/-- the `chunkText` of the LLM module: texts within budget are a single chunk,
otherwise paragraphs are greedily packed (a lone oversized paragraph is
kept whole). -/
def chunkText (text : Text) (maxChars : Nat) : List Text :=
  if text.length ≤ maxChars then [text]
  else chunkGo maxChars (splitNN text) [] []

/-- one finding, minus the generated identifier (`generateId()` output is
modelled separately, see `attachIds`). -/
structure RedFlagCore where
  category : String
  severity : String
  title : String
  description : String
  location : String
  score : Int
  source : String
  recommendation : Option String
deriving DecidableEq, Repr

/-- a finding as produced to callers, with its generated id. -/
structure RedFlag where
  id : String
  category : String
  severity : String
  title : String
  description : String
  location : String
  score : Int
  source : String
  recommendation : Option String
deriving DecidableEq, Repr

/-- attach ids from the abstract supply in creation order (`generateId()`
is called once per pushed flag). -/
def attachIds (ids : Nat → String) : Nat → List RedFlagCore → List RedFlag
  | _, [] => []
  | n, f :: rest =>
    { id := ids n, category := f.category, severity := f.severity,
      title := f.title, description := f.description, location := f.location,
      score := f.score, source := f.source,
      recommendation := f.recommendation } :: attachIds ids (n + 1) rest

/-- forget the id of a finding. -/
def stripId (f : RedFlag) : RedFlagCore :=
  { category := f.category, severity := f.severity, title := f.title,
    description := f.description, location := f.location, score := f.score,
    source := f.source, recommendation := f.recommendation }

/-- consume a literal pattern case-insensitively at the head of the text,
returning the remaining text. -/
def ciLit : List Char → Text → Option Text
  | [], s => some s
  | _ :: _, [] => none
  | p :: ps, c :: cs => if eqCI p c then ciLit ps cs else none

/-- exact (case-sensitive) match of `pat` at the head of the text. -/
def listStarts : List Char → Text → Bool
  | [], _ => true
  | _ :: _, [] => false
  | p :: ps, c :: cs => p == c && listStarts ps cs

/-- JS `String.prototype.includes`: `pat` occurs contiguously in the text. -/
def containsSeq (pat : List Char) : Text → Bool
  | [] => pat.isEmpty
  | s@(_ :: rest) => listStarts pat s || containsSeq pat rest

/-- JS `String.prototype.toLowerCase` (ASCII folding; the keywords compared
against lowered text in the source are all ASCII). -/
def lowerText (s : Text) : Text := s.map Char.toLower

/-- the `g`-flag exec loop shared by every scanning rule: repeatedly find
the leftmost match at or after the current position, record
`(index, length, capture)` and resume at the match end.  The matcher
receives the previous character (for `\b`) and the remaining text; no
pattern in the source can match the empty string, `max len 1` only serves
termination. -/
def execScanFuel {κ : Type} (m : Option Char → Text → Option (Nat × κ)) :
    Nat → Option Char → Nat → Text → List (Nat × Nat × κ)
  | 0, _, _, _ => []
  | _, _, _, [] => []
  | fuel + 1, prev, pos, c :: rest =>
    match m prev (c :: rest) with
    | some (len, k) =>
      let step := max len 1
      (pos, len, k) ::
        execScanFuel m fuel (some ((c :: rest).getD (step - 1) c)) (pos + step)
          ((c :: rest).drop step)
    | none => execScanFuel m fuel (some c) (pos + 1) rest

/-- the exec loop started on a text: the fuel `s.length` is an artifact
making the recursion structural; every iteration advances by at least one
character, so it never runs out before the text does. -/
def execScan {κ : Type} (m : Option Char → Text → Option (Nat × κ))
    (prev : Option Char) (pos : Nat) (s : Text) : List (Nat × Nat × κ) :=
  execScanFuel m s.length prev pos s

/-- the `fuzzyPattern` semantics: the regex it builds is
`c1\s*c2\s*...\s*cn` over the alphanumeric characters of the term
(non-alphanumeric characters contribute only a `\s*`, consecutive `\s*`
collapse, and the trailing `\s*` is stripped), so the pattern is captured
by the term's alphanumeric characters in order. -/
def fuzzyTerm (term : String) : List Char := term.toList.filter isAsciiAlnum

/-- match the fuzzy pattern at the head of the text, returning the matched
length.  Between consecutive pattern characters `\s*` is greedy; since
whitespace is disjoint from the alphanumeric pattern characters the
backtracking outcome is to consume the whole whitespace run. -/
def fuzzyMatchAt : List Char → Text → Option Nat
  | [], _ => some 0
  | [p], c :: _ => if eqCI p c then some 1 else none
  | [_], [] => none
  | p :: ps, c :: cs =>
    if eqCI p c then
      let w := (cs.takeWhile isJsWs).length
      match fuzzyMatchAt ps (cs.drop w) with
      | some l => some (1 + w + l)
      | none => none
    else none
  | _ :: _ :: _, [] => none

/-- the `pattern.test(text)` for a fuzzy pattern: a match exists somewhere. -/
def fuzzyFoundAux (pat : List Char) : Text → Bool
  | [] => (fuzzyMatchAt pat []).isSome
  | s@(_ :: rest) => (fuzzyMatchAt pat s).isSome || fuzzyFoundAux pat rest

/-- fuzzy existence test for a literal term. -/
def fuzzyFound (term : String) (text : Text) : Bool :=
  fuzzyFoundAux (fuzzyTerm term) text

/-- all matches of a fuzzy pattern, in exec-loop order. -/
def fuzzyScan (term : String) (text : Text) : List (Nat × Nat × Unit) :=
  execScan (fun _ s => (fuzzyMatchAt (fuzzyTerm term) s).map (fun l => (l, ()))) none 0 text

/-- split on the space character (the weasel-word catalog uses single
spaces, so `word.replace(/\s+/g, '\\s+')` turns exactly these into
`\s+` joiners). -/
def splitSp : List Char → List (List Char)
  | [] => [[]]
  | ' ' :: rest => [] :: splitSp rest
  | c :: rest =>
    match splitSp rest with
    | [] => [[c]]
    | h :: t => (c :: h) :: t

/-- the `\s+`-joined token list of a weasel word. -/
def tokensOf (w : String) : List (List Char) := splitSp w.toList

/-- left side of a `\b` boundary: start of text or a non-word character. -/
def boundaryLeftOk : Option Char → Bool
  | none => true
  | some c => !isWordChar c

/-- match the token list at the head of the text: tokens are literal
(case-insensitive), joined by `\s+`, with a `\b` lookahead after the last
token.  Returns the consumed length. -/
def matchToks : List (List Char) → Text → Option Nat
  | [], _ => none
  | [t], s =>
    match ciLit t s with
    | none => none
    | some rest =>
      match rest with
      | [] => some t.length
      | c :: _ => if isWordChar c then none else some t.length
  | t :: ts, s =>
    match ciLit t s with
    | none => none
    | some rest =>
      let w := (rest.takeWhile isJsWs).length
      if w == 0 then none
      else
        match matchToks ts (rest.drop w) with
        | some l => some (t.length + w + l)
        | none => none

/-- all whole-word matches of a weasel word (`\bword\b`, `gi`). -/
def weaselScan (w : String) (text : Text) : List (Nat × Nat × Unit) :=
  execScan (fun prev s =>
    if boundaryLeftOk prev then (matchToks (tokensOf w) s).map (fun l => (l, ()))
    else none) none 0 text

/-- numeric value of a decimal digit character. -/
def digitVal (c : Char) : Nat := c.toNat - 48

/-- value of a run of decimal digits (JS `parseInt` on the captured run). -/
def digitsVal (ds : List Char) : Nat := ds.foldl (fun a c => 10 * a + digitVal c) 0

/-- the `(?:19|20)(\d{2})` at the head of the text: a literal century prefix
(alternatives tried in order, with disjoint first characters) followed by
two digits; returns the captured two-digit year. -/
def yearAt : Text → Option Nat
  | c1 :: c2 :: d1 :: d2 :: _ =>
    if ((c1 == '1' && c2 == '9') || (c1 == '2' && c2 == '0'))
        && d1.isDigit && d2.isDigit then
      some (10 * digitVal d1 + digitVal d2)
    else none
  | _ => none

/-- the `.{0,50}(?:19|20)(\d{2})`: the greedy bounded gap tries the longest
non-newline stretch first.  Returns (consumed length, captured year). -/
def gapYear (s : Text) : Option (Nat × Nat) :=
  let nn := (s.takeWhile notNewline).length
  (List.range (min 50 nn + 1)).reverse.findSome? (fun k =>
    (yearAt (s.drop k)).map (fun y => (k + 4, y)))

/-- the `audit(?:ed)?.{0,50}(?:19|20)(\d{2})` at the head of the text: the
optional `ed` is greedy, so the `ed` branch is explored (with all gap
lengths) before falling back to the bare `audit` branch. -/
def auditMatchAt (s : Text) : Option (Nat × Nat) :=
  match ciLit ("audit".toList) s with
  | none => none
  | some rest =>
    match ciLit ("ed".toList) rest with
    | some rest2 =>
      match gapYear rest2 with
      | some (l, y) => some (7 + l, y)
      | none => (gapYear rest).map (fun p => (5 + p.1, p.2))
    | none => (gapYear rest).map (fun p => (5 + p.1, p.2))

/-- all audit-date matches, in exec-loop order: (index, length, year). -/
def auditScan (text : Text) : List (Nat × Nat × Nat) :=
  execScan (fun _ s => auditMatchAt s) none 0 text

/-- a regex alternation of literals, tried left to right. -/
def altLit (alts : List (List Char)) (s : Text) : Option Nat :=
  alts.findSome? (fun a => (ciLit a s).map (fun _ => a.length))

/-- the `.*(?:a|b|...)`: greedy unbounded non-newline gap, longest first; at
each gap length the alternatives are tried in order. -/
def greedyGapAlt (alts : List (List Char)) (s : Text) : Option Nat :=
  let nn := (s.takeWhile notNewline).length
  (List.range (nn + 1)).reverse.findSome? (fun k =>
    (altLit alts (s.drop k)).map (fun l => k + l))

/-- the `earnout.*(?:undefined|to be determined|mutually agreed)`. -/
def earnoutMatchAt (s : Text) : Option Nat :=
  match ciLit ("earnout".toList) s with
  | none => none
  | some rest =>
    (greedyGapAlt ["undefined".toList, "to be determined".toList,
      "mutually agreed".toList] rest).map (fun l => 7 + l)

/-- the `deferred.*(?:performance metrics|to be determined)`. -/
def deferredMatchAt (s : Text) : Option Nat :=
  match ciLit ("deferred".toList) s with
  | none => none
  | some rest =>
    (greedyGapAlt ["performance metrics".toList,
      "to be determined".toList] rest).map (fun l => 8 + l)

/-- the optional `s?` after a unit word, greedy (always taken when present,
as nothing follows it in the patterns using it). -/
def optS (s : Text) : Nat :=
  match s with
  | c :: _ => if eqCI 's' c then 1 else 0
  | [] => 0

/-- the `(?:months?|days?)`-style unit alternation: base words in order, each
with an optional trailing `s`. -/
def unitAlt (bases : List (List Char)) (s : Text) : Option Nat :=
  bases.findSome? (fun b =>
    match ciLit b s with
    | none => none
    | some rest => some (b.length + optS rest))

/-- the `(\d+)\s*(?:unit)` at the head of the text: a maximal digit run (the
greedy `\d+` cannot usefully backtrack, since shrinking it leaves a digit
where whitespace or a letter is required), optional whitespace, then the
unit.  Returns (consumed length, captured number). -/
def numUnit (bases : List (List Char)) (s : Text) : Option (Nat × Nat) :=
  let ds := s.takeWhile Char.isDigit
  if ds.length == 0 then none
  else
    let rest := s.drop ds.length
    let w := (rest.takeWhile isJsWs).length
    (unitAlt bases (rest.drop w)).map (fun ul => (ds.length + w + ul, digitsVal ds))

/-- the `.*?(\d+)\s*(?:unit)`: lazy gap, shortest non-newline stretch first. -/
def lazyGapNum (bases : List (List Char)) (s : Text) : Option (Nat × Nat) :=
  let nn := (s.takeWhile notNewline).length
  (List.range (nn + 1)).findSome? (fun k =>
    (numUnit bases (s.drop k)).map (fun p => (k + p.1, p.2)))

/-- the `(?:surviv|representations).*?(\d+)\s*(?:months?|days?)`. -/
def liabMatchAt (s : Text) : Option (Nat × Nat) :=
  let pre :=
    match ciLit ("surviv".toList) s with
    | some rest => some (6, rest)
    | none =>
      match ciLit ("representations".toList) s with
      | some rest => some (15, rest)
      | none => none
  match pre with
  | none => none
  | some (pl, rest) =>
    (lazyGapNum ["month".toList, "day".toList] rest).map (fun p => (pl + p.1, p.2))

/-- the `(\d+)%` at the head of the text: maximal digit run then a percent
sign. -/
def pctAt (s : Text) : Option (Nat × Nat) :=
  let ds := s.takeWhile Char.isDigit
  if ds.length == 0 then none
  else
    match s.drop ds.length with
    | '%' :: _ => some (ds.length + 1, digitsVal ds)
    | _ => none

/-- the `.*?(\d+)%`: lazy gap to the percentage. -/
def lazyGapPct (s : Text) : Option (Nat × Nat) :=
  let nn := (s.takeWhile notNewline).length
  (List.range (nn + 1)).findSome? (fun k =>
    (pctAt (s.drop k)).map (fun p => (k + p.1, p.2)))

/-- the `top\s+\d+\s+customers?.*?(\d+)%`. -/
def concMatchAt (s : Text) : Option (Nat × Nat) :=
  match ciLit ("top".toList) s with
  | none => none
  | some r1 =>
    let w1 := (r1.takeWhile isJsWs).length
    if w1 == 0 then none
    else
      let r2 := r1.drop w1
      let ds := r2.takeWhile Char.isDigit
      if ds.length == 0 then none
      else
        let r3 := r2.drop ds.length
        let w2 := (r3.takeWhile isJsWs).length
        if w2 == 0 then none
        else
          match ciLit ("customer".toList) (r3.drop w2) with
          | none => none
          | some r4 =>
            let so := optS r4
            (lazyGapPct (r4.drop so)).map (fun p =>
              (3 + w1 + ds.length + w2 + 8 + so + p.1, p.2))

/-- the `\s+of\s+(?:buyer|purchaser|parent)` (tail of the stock pattern). -/
def stockTail (t : Text) : Option Nat :=
  let w2 := (t.takeWhile isJsWs).length
  if w2 == 0 then none
  else
    match ciLit ("of".toList) (t.drop w2) with
    | none => none
    | some r3 =>
      let w3 := (r3.takeWhile isJsWs).length
      if w3 == 0 then none
      else
        (altLit ["buyer".toList, "purchaser".toList, "parent".toList]
          (r3.drop w3)).map (fun l => w2 + 2 + w3 + l)

/-- the `\s*shares?\s+of\s+(?:buyer|purchaser|parent)`: the optional `s` is
tried first; on failure the engine retries without it (which then fails at
`\s+` unless the `s` was absent). -/
def stockCont (t : Text) : Option Nat :=
  let w1 := (t.takeWhile isJsWs).length
  match ciLit ("share".toList) (t.drop w1) with
  | none => none
  | some r1 =>
    let withS : Option Nat :=
      match r1 with
      | c :: r2 => if eqCI 's' c then (stockTail r2).map (fun l => 1 + l) else none
      | [] => none
    match withS with
    | some l => some (w1 + 5 + l)
    | none => (stockTail r1).map (fun l => w1 + 5 + l)

/-- the `(\d+(?:\.\d+)?)\s*shares?\s+of\s+(?:buyer|purchaser|parent)`:
returns (length, captured ratio characters).  The optional fraction is
greedy; backtracking inside the digit runs cannot succeed, so the only
fallback is dropping the whole fraction. -/
def stockMatchAt (s : Text) : Option (Nat × List Char) :=
  let ds := s.takeWhile Char.isDigit
  if ds.length == 0 then none
  else
    let r1 := s.drop ds.length
    let withFrac : Option (Nat × List Char) :=
      match r1 with
      | '.' :: r2 =>
        let fs := r2.takeWhile Char.isDigit
        if fs.length == 0 then none
        else
          (stockCont (r2.drop fs.length)).map (fun l =>
            (ds.length + 1 + fs.length + l, ds ++ '.' :: fs))
      | _ => none
    match withFrac with
    | some p => some p
    | none => (stockCont r1).map (fun l => (ds.length + l, ds))

/-- the `(?:transition|integration).*?(\d+)\s*(?:days?|weeks?)`. -/
def transMatchAt (s : Text) : Option (Nat × Nat) :=
  let pre :=
    match ciLit ("transition".toList) s with
    | some rest => some (10, rest)
    | none =>
      match ciLit ("integration".toList) s with
      | some rest => some (11, rest)
      | none => none
  match pre with
  | none => none
  | some (pl, rest) =>
    (lazyGapNum ["day".toList, "week".toList] rest).map (fun p => (pl + p.1, p.2))

/-- the `(?:claim|indemnification)\s+notice.*?(\d+)\s*(?:days?|weeks?)`. -/
def noticeMatchAt (s : Text) : Option (Nat × Nat) :=
  let pre :=
    match ciLit ("claim".toList) s with
    | some rest => some (5, rest)
    | none =>
      match ciLit ("indemnification".toList) s with
      | some rest => some (15, rest)
      | none => none
  match pre with
  | none => none
  | some (pl, rest) =>
    let w := (rest.takeWhile isJsWs).length
    if w == 0 then none
    else
      match ciLit ("notice".toList) (rest.drop w) with
      | none => none
      | some rest2 =>
        (lazyGapNum ["day".toList, "week".toList] rest2).map (fun p =>
          (pl + w + 6 + p.1, p.2))

/-- the `.{0,100}indicator.{0,100}` at the head of the text (greedy bounded
gaps, case-insensitive indicator); returns the matched substring. -/
def schedTryAt (ind : List Char) (s : Text) : Option (List Char) :=
  let nn := (s.takeWhile notNewline).length
  (List.range (min 100 nn + 1)).reverse.findSome? (fun k =>
    match ciLit ind (s.drop k) with
    | none => none
    | some rest =>
      let m := min 100 ((rest.takeWhile notNewline).length)
      some (s.take (k + ind.length + m)))

/-- leftmost match of `.{0,100}indicator.{0,100}` (`match[0]`). -/
def schedCtx (ind : List Char) : Text → Option (List Char)
  | [] => none
  | s@(_ :: rest) =>
    match schedTryAt ind s with
    | some ctx => some ctx
    | none => schedCtx ind rest

/-- the offshore-jurisdiction catalog of the rule engine. -/
def OFFSHORE_JURISDICTIONS : List String :=
  ["Cayman Islands", "BVI", "British Virgin Islands",
   "Bermuda", "Panama", "Isle of Man", "Jersey",
   "Guernsey", "Liechtenstein", "Luxembourg",
   "Cyprus", "Malta", "Seychelles", "Bahamas"]

/-- the weasel-word catalog. -/
def WEASEL_WORDS : List String :=
  ["reasonable", "material", "substantial", "significant",
   "timely", "commercially reasonable", "best efforts"]

/-- the high-risk deferral phrases. -/
def HIGH_RISK_PHRASES : List String :=
  ["to be provided", "being finalized", "being compiled",
   "will be attached", "to be determined", "subject to",
   "contingent upon"]

/-- one offshore-jurisdiction finding. -/
def mkOffshoreFlag (text : Text) (j : String) (m : Nat × Nat × Unit) : RedFlagCore :=
  let context := getContext text m.1 (m.1 + m.2.1) 150
  let contextLower := lowerText context
  let isGoverningLaw :=
    containsSeq ("governing law".toList) contextLower ||
    containsSeq ("arbitration".toList) contextLower ||
    containsSeq ("dispute resolution".toList) contextLower
  { category := "jurisdiction",
    severity := if isGoverningLaw then "CRITICAL" else "HIGH",
    title := "Offshore Jurisdiction: " ++ j,
    description := "Document references " ++ j ++
      ", which may indicate jurisdiction shopping or regulatory arbitrage.",
    location := String.mk context,
    score := if isGoverningLaw then 9 else 7,
    source := "rule_engine",
    recommendation := some ("Require arbitration in neutral jurisdiction (Delaware, New York, or London). Investigate why offshore jurisdiction was chosen.") }

/-- the `checkOffshoreJurisdictions`. -/
def checkOffshoreJurisdictions (text : Text) : List RedFlagCore :=
  OFFSHORE_JURISDICTIONS.flatMap (fun j =>
    (fuzzyScan j text).map (mkOffshoreFlag text j))

/-- one excessive-vague-language finding (context is taken at the first
match, via `text.search`; the span end is `firstMatchIndex + word.length`,
using the literal word's length, not the matched length). -/
def mkWeaselFlag (text : Text) (w : String) : RedFlagCore :=
  let ms := weaselScan w text
  let n := ms.length
  let firstIdx := (ms.head?.map (fun m => m.1)).getD 0
  { category := "vague_language",
    severity := "MEDIUM",
    title := "Excessive Vague Language: \x27" ++ w ++ "\x27 (" ++ toString n ++ "x)",
    description := "Term \x27" ++ w ++ "\x27 appears " ++ toString n ++
      " times. Vague language creates ambiguity and potential for disputes.",
    location := String.mk (getContext text firstIdx (firstIdx + w.length) 150),
    score := 5,
    source := "rule_engine",
    recommendation := some ("Request specific definitions and thresholds. Replace \x27" ++ w ++ "\x27 with measurable criteria.") }

/-- the `checkWeaselWords`: one finding per listed term whose whole-word match
count exceeds 3. -/
def checkWeaselWords (text : Text) : List RedFlagCore :=
  WEASEL_WORDS.flatMap (fun w =>
    if 3 < (weaselScan w text).length then [mkWeaselFlag text w] else [])

/-- one deferred-disclosure finding. -/
def mkHighRiskFlag (text : Text) (phrase : String) (m : Nat × Nat × Unit) : RedFlagCore :=
  { category := "missing_info",
    severity := "HIGH",
    title := "Deferred Disclosure: \x27" ++ phrase ++ "\x27",
    description := "Critical information is deferred or incomplete. This is a major red flag - you are signing before having full information.",
    location := String.mk (getContext text m.1 (m.1 + m.2.1) 150),
    score := 8,
    source := "rule_engine",
    recommendation := some ("STOP. Do not sign until all referenced information is provided and reviewed. No post-closing surprises.") }

/-- the `checkHighRiskPhrases`. -/
def checkHighRiskPhrases (text : Text) : List RedFlagCore :=
  HIGH_RISK_PHRASES.flatMap (fun phrase =>
    (fuzzyScan phrase text).map (mkHighRiskFlag text phrase))

/-- the deferral indicators of `checkMissingSchedules`. -/
def missingIndicators : List String :=
  ["being finalized", "to be provided", "being compiled",
   "will be attached", "to be determined"]

/-- the missing-schedules finding for a given indicator and context. -/
def mkSchedFlag (ind : String) (ctx : List Char) : RedFlagCore :=
  { category := "missing_info",
    severity := "CRITICAL",
    title := "Missing or Incomplete Schedules",
    description := "Schedules are incomplete: \x27" ++ ind ++ "\x27. Never sign with missing schedules.",
    location := String.mk ctx,
    score := 10,
    source := "rule_engine",
    recommendation := some ("Require all schedules to be completed and attached before signing. Missing schedules = unknown liabilities.") }

/-- the indicator loop of `checkMissingSchedules`: the first indicator
contained (case-insensitively) in the text produces one finding and breaks.
(The schedule-reference collection at the top of the source function is
dead state: the collected set is never read, so it is not modelled.) -/
def schedLoop (text : Text) : List String → List RedFlagCore
  | [] => []
  | ind :: rest =>
    if containsSeq ind.toList (lowerText text) then
      match schedCtx ind.toList text with
      | some ctx => [mkSchedFlag ind ctx]
      | none => schedLoop text rest
    else schedLoop text rest

/-- the `checkMissingSchedules`. -/
def checkMissingSchedules (text : Text) : List RedFlagCore :=
  schedLoop text missingIndicators

/-- the `year > 50 ? 1900 + year : 2000 + year`: the source expands a captured
two-digit year into a full year. -/
def expandYear (y : Nat) : Nat := if 50 < y then 1900 + y else 2000 + y

/-- one outdated-audit finding. -/
def mkDateFlag (text : Text) (m : Nat × Nat × Nat) : RedFlagCore :=
  let fullYear := expandYear m.2.2
  { category := "financial",
    severity := "HIGH",
    title := "Outdated Financial Audit (" ++ toString fullYear ++ ")",
    description := "Most recent audit mentioned is from " ++ toString fullYear ++
      ", which is too old to be reliable.",
    location := String.mk (getContext text m.1 (m.1 + m.2.1) 150),
    score := 7,
    source := "rule_engine",
    recommendation := some ("Require current audited financials (within 12 months). Outdated audits hide recent problems.") }

/-- the match loop of `checkDateAnomalies`: flag each audit match whose
expanded year is more than 2 years before the current year. -/
def dateLoop (year : Nat) (text : Text) : List (Nat × Nat × Nat) → List RedFlagCore
  | [] => []
  | m :: rest =>
    if expandYear m.2.2 < year - 2 then mkDateFlag text m :: dateLoop year text rest
    else dateLoop year text rest

/-- the `checkDateAnomalies` (`new Date().getFullYear()` is the `year`
parameter). -/
def checkDateAnomalies (year : Nat) (text : Text) : List RedFlagCore :=
  dateLoop year text (auditScan text)

/-- one undefined-earnout finding. -/
def mkEarnoutFlag (text : Text) (m : Nat × Nat × Unit) : RedFlagCore :=
  { category := "financial",
    severity := "CRITICAL",
    title := "Undefined Earnout Targets",
    description := "Payment terms are incomplete or subject to future agreement. This creates massive dispute risk.",
    location := String.mk (getContext text m.1 (m.1 + m.2.1) 150),
    score := 10,
    source := "rule_engine",
    recommendation := some ("Never accept undefined earnout metrics. Specify exact EBITDA/revenue targets and calculation methods.") }

/-- one undefined-deferred-payment finding. -/
def mkDeferredFlag (text : Text) (m : Nat × Nat × Unit) : RedFlagCore :=
  { category := "financial",
    severity := "HIGH",
    title := "Undefined Deferred Payment Terms",
    description := "Payment terms are incomplete or subject to future agreement. This creates massive dispute risk.",
    location := String.mk (getContext text m.1 (m.1 + m.2.1) 150),
    score := 8,
    source := "rule_engine",
    recommendation := some ("All deferred payment triggers must be clearly defined at signing.") }

/-- the `checkPaymentRedFlags`: the two payment patterns, each fully scanned
in catalog order. -/
def checkPaymentRedFlags (text : Text) : List RedFlagCore :=
  (execScan (fun _ s => (earnoutMatchAt s).map (fun l => (l, ()))) none 0 text).map
    (mkEarnoutFlag text) ++
  (execScan (fun _ s => (deferredMatchAt s).map (fun l => (l, ()))) none 0 text).map
    (mkDeferredFlag text)

/-- one short-survival-period finding. -/
def mkLiabFlag (text : Text) (m : Nat × Nat × Nat) : RedFlagCore :=
  let period := m.2.2
  { category := "liability",
    severity := "HIGH",
    title := "Short Survival Period (" ++ toString period ++ " months)",
    description := "Representations survive only " ++ toString period ++
      " months. Industry standard is 18-24 months minimum.",
    location := String.mk (getContext text m.1 (m.1 + m.2.1) 150),
    score := 7,
    source := "rule_engine",
    recommendation := some ("Negotiate longer survival period (minimum 18 months). " ++ toString period ++ " months is insufficient for most issues to surface.") }

/-- the match loop of `checkLiabilityLimitations` (flag if the captured
number is below 12, regardless of the unit that matched). -/
def liabLoop (text : Text) : List (Nat × Nat × Nat) → List RedFlagCore
  | [] => []
  | m :: rest =>
    if m.2.2 < 12 then mkLiabFlag text m :: liabLoop text rest
    else liabLoop text rest

/-- the `checkLiabilityLimitations`. -/
def checkLiabilityLimitations (text : Text) : List RedFlagCore :=
  liabLoop text (execScan (fun _ s => liabMatchAt s) none 0 text)

/-- one customer-concentration finding. -/
def mkConcFlag (text : Text) (m : Nat × Nat × Nat) : RedFlagCore :=
  let percentage := m.2.2
  { category := "customer",
    severity := if 70 < percentage then "CRITICAL" else "HIGH",
    title := "High Customer Concentration (" ++ toString percentage ++ "%)",
    description := "Top customers represent " ++ toString percentage ++
      "% of revenue. Loss of any major customer could be catastrophic.",
    location := String.mk (getContext text m.1 (m.1 + m.2.1) 150),
    score := if 70 < percentage then 9 else 7,
    source := "rule_engine",
    recommendation := some ("Require customer retention agreements, escrow protection, or earnout tied to customer retention.") }

/-- the match loop of `checkCustomerConcentration` (flag if above 50%). -/
def concLoop (text : Text) : List (Nat × Nat × Nat) → List RedFlagCore
  | [] => []
  | m :: rest =>
    if 50 < m.2.2 then mkConcFlag text m :: concLoop text rest
    else concLoop text rest

/-- the `checkCustomerConcentration`. -/
def checkCustomerConcentration (text : Text) : List RedFlagCore :=
  concLoop text (execScan (fun _ s => concMatchAt s) none 0 text)

/-- one required provision of `checkRequiredProvisions`. -/
structure Provision where
  pid : String
  keywords : List String
  title : String

/-- the seven entries of the required-provision catalog. -/
def provEscrow : Provision :=
  ⟨"escrow", ["escrow", "holdback", "retention"],
   "Missing Escrow/Holdback Provision"⟩

def provSurvival : Provision :=
  ⟨"survival_period", ["survival", "survive closing", "survival period"],
   "Missing Survival Period Provision"⟩

def provMac : Provision :=
  ⟨"mac_clause", ["material adverse", "material adverse change", "material adverse effect"],
   "Missing MAC Clause"⟩

def provLiabilityCap : Provision :=
  ⟨"liability_cap", ["cap", "limitation of liability", "maximum liability"],
   "Missing Liability Cap"⟩

def provEnvironmental : Provision :=
  ⟨"environmental", ["environmental", "hazardous", "pollution", "cleanup"],
   "Missing Environmental Provision"⟩

def provEmployeeBenefits : Provision :=
  ⟨"employee_benefits", ["employee benefit", "pension", "401k", "ERISA"],
   "Missing Employee Benefits Provision"⟩

def provConfidentiality : Provision :=
  ⟨"confidentiality", ["confidential", "non-disclosure", "ndia", "proprietary information"],
   "Missing Confidentiality Provision"⟩

/-- the required-provision catalog. -/
def requiredProvisions : List Provision :=
  [provEscrow, provSurvival, provMac, provLiabilityCap,
   provEnvironmental, provEmployeeBenefits, provConfidentiality]

/-- the `provision.id.replace('_', ' ')` (JS string replace: first occurrence
only; every catalog id has at most one underscore). -/
def replaceFirstUnd : List Char → List Char
  | [] => []
  | '_' :: rest => ' ' :: rest
  | c :: rest => c :: replaceFirstUnd rest

/-- the absence finding for one required provision. -/
def mkProvisionFlag (p : Provision) : RedFlagCore :=
  let pretty := String.mk (replaceFirstUnd p.pid.toList)
  { category := if p.pid == "confidentiality" then "legal" else "missing_info",
    severity := if p.pid == "confidentiality" then "CRITICAL" else "HIGH",
    title := p.title,
    description :=
      if p.pid == "confidentiality" then
        "The agreement lacks a confidentiality clause, exposing deal terms and strategic data to misuse. This is a non-negotiable term in M&A."
      else
        "This M&A agreement lacks a " ++ pretty ++ " provision, which is standard and critical for protecting the parties.",
    location := "N/A - Provision not found in document",
    score := if p.pid == "confidentiality" then 10 else 7,
    source := "rule_engine",
    recommendation := some
      (if p.pid == "confidentiality" then
        "STOP. Demand a robust confidentiality and non-disclosure clause immediately."
      else
        "Add a comprehensive " ++ pretty ++ " provision to protect both parties.") }

/-- the `checkRequiredProvisions`: a provision whose keyword synonyms all fail
the fuzzy test produces one absence finding. -/
def checkRequiredProvisions (text : Text) : List RedFlagCore :=
  requiredProvisions.flatMap (fun p =>
    if p.keywords.any (fun k => fuzzyFound k text) then []
    else [mkProvisionFlag p])

/-- the regulatory keyword catalog. -/
def regulatoryKeywords : List (String × String) :=
  [("FERC", "Federal Energy Regulatory Commission (FERC) Approval Required"),
   ("Regulatory Approval", "Material Regulatory Closing Condition"),
   ("Antitrust", "Antitrust/Competition Filing Required")]

/-- one regulatory-risk finding. -/
def mkRegulatoryFlag (text : Text) (term title : String) (m : Nat × Nat × Unit) :
    RedFlagCore :=
  { category := "compliance",
    severity := "HIGH",
    title := title,
    description := "The deal hinges on " ++ term ++
      " approval. Energy and utility deals face high regulatory scrutiny; denial could kill the transaction.",
    location := String.mk (getContext text m.1 (m.1 + m.2.1) 150),
    score := 8,
    source := "rule_engine",
    recommendation := some ("Develop a regulatory strategy and backup plan (e.g., \x27hell or high water\x27 provisions or extended timelines).") }

/-- the `checkRegulatoryRisks`. -/
def checkRegulatoryRisks (text : Text) : List RedFlagCore :=
  regulatoryKeywords.flatMap (fun tk =>
    (fuzzyScan tk.1 text).map (mkRegulatoryFlag text tk.1 tk.2))

/-- the `match[0].toLowerCase().includes('week')` for a recorded match. -/
def spanHasWeek (text : Text) (m : Nat × Nat × Nat) : Bool :=
  containsSeq ("week".toList) (lowerText ((text.drop m.1).take m.2.1))

/-- day count of a period match: weeks are converted by 7. -/
def matchDays (text : Text) (m : Nat × Nat × Nat) : Nat :=
  if spanHasWeek text m then m.2.2 * 7 else m.2.2

/-- one short-transition-period finding. -/
def mkTransFlag (text : Text) (m : Nat × Nat × Nat) : RedFlagCore :=
  let days := matchDays text m
  { category := "operational",
    severity := "MEDIUM",
    title := "Short Transition Period (" ++ toString days ++ " days)",
    description := "A " ++ toString days ++
      "-day transition period is often insufficient for complex integrations (IT, HR, Compliance). Risks operational disruption.",
    location := String.mk (getContext text m.1 (m.1 + m.2.1) 150),
    score := 6,
    source := "rule_engine",
    recommendation := some ("Negotiate a 90-180 day transition period to ensure a stable handover.") }

/-- one aggressive-claim-notice finding. -/
def mkNoticeFlag (text : Text) (m : Nat × Nat × Nat) : RedFlagCore :=
  let days := matchDays text m
  { category := "liability",
    severity := "MEDIUM",
    title := "Aggressive Claim Notice Period (" ++ toString days ++ " days)",
    description := "Discovery of liabilities often takes longer than " ++ toString days ++
      " days. This compressed window may bar valid claims.",
    location := String.mk (getContext text m.1 (m.1 + m.2.1) 150),
    score := 5,
    source := "rule_engine",
    recommendation := some ("Request a 90-180 day claim notice period to allow for post-closing audits and discovery.") }

/-- the transition-match loop of `checkShortNoticePeriods`. -/
def transLoop (text : Text) : List (Nat × Nat × Nat) → List RedFlagCore
  | [] => []
  | m :: rest =>
    if matchDays text m < 90 then mkTransFlag text m :: transLoop text rest
    else transLoop text rest

/-- the claim-notice loop of `checkShortNoticePeriods`. -/
def noticeLoop (text : Text) : List (Nat × Nat × Nat) → List RedFlagCore
  | [] => []
  | m :: rest =>
    if matchDays text m < 90 then mkNoticeFlag text m :: noticeLoop text rest
    else noticeLoop text rest

/-- the `checkShortNoticePeriods`: both period patterns, transition first. -/
def checkShortNoticePeriods (text : Text) : List RedFlagCore :=
  transLoop text (execScan (fun _ s => transMatchAt s) none 0 text) ++
  noticeLoop text (execScan (fun _ s => noticeMatchAt s) none 0 text)

/-- one stock-consideration finding. -/
def mkStockFlag (text : Text) (m : Nat × Nat × List Char) : RedFlagCore :=
  { category := "financial",
    severity := "LOW",
    title := "Stock Consideration Volatility (Ratio: " ++ String.mk m.2.2 ++ ")",
    description := "Payment includes buyer stock. Market volatility could devalue the deal significantly between signing and closing.",
    location := String.mk (getContext text m.1 (m.1 + m.2.1) 150),
    score := 3,
    source := "rule_engine",
    recommendation := some ("Implement a stock collar (price floor/ceiling) or an escrow to hedge against buyer stock price drops.") }

/-- the `checkStockConsideration`. -/
def checkStockConsideration (text : Text) : List RedFlagCore :=
  (execScan (fun _ s => stockMatchAt s) none 0 text).map (mkStockFlag text)

/-- the catalog run by `analyzeWithRules`, in source order (only the
date-anomaly rule consults the clock). -/
def ruleCatalog : List (Nat → Text → List RedFlagCore) :=
  [fun _ t => checkOffshoreJurisdictions t,
   fun _ t => checkWeaselWords t,
   fun _ t => checkHighRiskPhrases t,
   fun _ t => checkMissingSchedules t,
   fun year t => checkDateAnomalies year t,
   fun _ t => checkPaymentRedFlags t,
   fun _ t => checkLiabilityLimitations t,
   fun _ t => checkCustomerConcentration t,
   fun _ t => checkRequiredProvisions t,
   fun _ t => checkRegulatoryRisks t,
   fun _ t => checkShortNoticePeriods t,
   fun _ t => checkStockConsideration t]

/-- the accumulated finding list of one rule-engine run (all rules run
against the same text, appending to a single accumulator). -/
def analyzeRulesCore (year : Nat) (text : Text) : List RedFlagCore :=
  (ruleCatalog.map (fun r => r year text)).flatten

/-- the `analyzeWithRules`: run every rule, attaching generated ids in
creation order from the abstract id supply. -/
def analyzeWithRules (ids : Nat → String) (year : Nat) (text : Text) : List RedFlag :=
  attachIds ids 0 (analyzeRulesCore year text)

/-- one parsed item of the LLM's JSON response, as seen by the normalizer.
String-valued fields are `none` when absent (`undefined`/`null`); `score`
is the result of `parseInt(item.score)` with `none` for `NaN`
(unparseable). -/
structure LlmItem where
  category : Option String
  severity : Option String
  title : Option String
  description : Option String
  quote : Option String
  location : Option String
  score : Option Int
  recommendation : Option String
deriving DecidableEq, Repr

/-- JS `a || d` for a string value: the default is used when the value is
missing or the empty string (falsy), otherwise the value passes through. -/
def jsOr (v : Option String) (d : String) : String :=
  match v with
  | none => d
  | some s => if s == "" then d else s

/-- JS `item.quote || item.location || ''`. -/
def jsOr2 (a b : Option String) : String := jsOr a (jsOr b (""))

/-- the `Math.min(10, Math.max(1, parseInt(item.score) || 5))`: `NaN` and `0`
are falsy and default to 5 before clamping. -/
def normScore (v : Option Int) : Int :=
  min 10 (max 1 (match v with
    | none => 5
    | some n => if n == 0 then 5 else n))

/-- the category enumeration the analysis prompt instructs the model to
use (§ the prompt template in the LLM module). -/
def CATEGORIES : List String :=
  ["jurisdiction", "financial", "legal", "operational", "compliance",
   "vague_language", "missing_info", "liability", "intellectual_property",
   "tax", "employee", "customer", "other"]

/-- the severity enumeration of the `RedFlag` interface. -/
def SEVERITIES : List String := ["CRITICAL", "HIGH", "MEDIUM", "LOW"]

/-- normalization of one parsed item into the common finding contract
(the per-item conversion inside `analyzeChunk`; the generated id is
attached separately, like the rule engine's). -/
def mkLlmFlag (item : LlmItem) : RedFlagCore :=
  { category := jsOr item.category ("other"),
    severity := jsOr item.severity ("MEDIUM"),
    title := jsOr item.title ("Unspecified Issue"),
    description := jsOr item.description (""),
    location := String.mk ((jsOr2 item.quote item.location).toList.take 500),
    score := normScore item.score,
    source := "llm_analyzer",
    recommendation := item.recommendation }

/-- the JSON shapes `analyzeChunk` accepts from the backend: a bare array,
an object with a `flags` array, any other object (wrapped into a singleton
array), or a non-object value (yielding no items). -/
inductive LlmResponse where
  | arr (items : List LlmItem)
  | objFlags (items : List LlmItem)
  | obj (item : LlmItem)
  | other
deriving Repr

/-- the `flagsArray` shape dispatch of `analyzeChunk`. -/
def shapeItems : LlmResponse → List LlmItem
  | .arr items => items
  | .objFlags items => items
  | .obj item => [item]
  | .other => []

/-- the `analyzeChunk`, with the backend call abstracted by its outcome: a
thrown exception (timeout, transport failure, anything reaching the
function's catch-all) yields zero findings; a parsed response is shaped
and normalized item by item. -/
def analyzeChunk (outcome : Except String LlmResponse) : List RedFlagCore :=
  match outcome with
  | .error _ => []
  | .ok r => (shapeItems r).map mkLlmFlag

/-- the sequential chunk loop of `analyzeWithLLM`: chunk `i`'s findings
are appended to the accumulator before chunk `i+1` is attempted (the
500 ms pacing delay between chunks does not affect the result). -/
def llmGo (oracle : Nat → Except String LlmResponse) : Nat → List Text → List RedFlagCore
  | _, [] => []
  | i, _ :: rest => analyzeChunk (oracle i) ++ llmGo oracle (i + 1) rest

/-- the `analyzeWithLLM`: chunk the text (15000-character budget) and analyze
the chunks sequentially.  The backend's behavior is abstracted by an
oracle giving each chunk's outcome; the body is total, so the function's
outer catch-all (returning `[]`) is never exercised. -/
def analyzeWithLLM (oracle : Nat → Except String LlmResponse) (text : Text) :
    List RedFlagCore :=
  llmGo oracle 0 (chunkText text 15000)

theorem attachIds_map_stripId (ids : Nat → String) :
    ∀ (n : Nat) (l : List RedFlagCore), (attachIds ids n l).map stripId = l := by
  intro n l
  induction l generalizing n with
  | nil => simp [attachIds]
  | cons f rest ih => simp [attachIds, stripId, ih]

theorem mem_attachIds (ids : Nat → String) :
    ∀ (n : Nat) (l : List RedFlagCore) (f : RedFlag),
      f ∈ attachIds ids n l → ∃ g ∈ l, stripId f = g := by
  intro n l
  induction l generalizing n with
  | nil => simp [attachIds]
  | cons g rest ih =>
    intro f hf
    simp only [attachIds, List.mem_cons] at hf
    rcases hf with h | h
    · exact ⟨g, List.mem_cons_self g rest, by simp [h, stripId]⟩
    · obtain ⟨g', hg', he⟩ := ih (n + 1) f h
      exact ⟨g', List.mem_cons_of_mem _ hg', he⟩

theorem countP_attachIds (p : RedFlag → Bool) (q : RedFlagCore → Bool)
    (h : ∀ f, p f = q (stripId f)) (ids : Nat → String) :
    ∀ (n : Nat) (l : List RedFlagCore),
      List.countP p (attachIds ids n l) = List.countP q l := by
  intro n l
  induction l generalizing n with
  | nil => simp [attachIds]
  | cons f rest ih =>
    simp only [attachIds, List.countP_cons, ih, h]
    congr 1

/-- C1: `analyzeWithRules` never fails: it is a total function of the
input text (given the ambient clock year and id supply), returning the
findings of all twelve catalog rules, each of which runs regardless of the
others.  (In the embedded semantics no rule's pattern evaluation can
throw, so the claim's caught-and-skipped conditional has no failing
executions to exercise.) -/
theorem C1_analyzeWithRules_total (ids : Nat → String) (year : Nat) (text : Text) :
    analyzeWithRules ids year text =
      attachIds ids 0
        (checkOffshoreJurisdictions text ++ checkWeaselWords text ++
         checkHighRiskPhrases text ++ checkMissingSchedules text ++
         checkDateAnomalies year text ++ checkPaymentRedFlags text ++
         checkLiabilityLimitations text ++ checkCustomerConcentration text ++
         checkRequiredProvisions text ++ checkRegulatoryRisks text ++
         checkShortNoticePeriods text ++ checkStockConsideration text) := by
  simp [analyzeWithRules, analyzeRulesCore, ruleCatalog]

/-- C9 counterexample: two runs of `analyzeWithRules` on the identical
text "audit 2023", observing clock years 2024 and 2027, differ beyond the
generated identifiers (the outdated-audit rule fires only in the second
run), so the finding set is not a function of the input text alone. -/
theorem C9_cx_clock_dependence :
    (analyzeWithRules (fun _ => "id") 2024 ("audit 2023".toList)).map stripId ≠
      (analyzeWithRules (fun _ => "id") 2027 ("audit 2023".toList)).map stripId := by
  decide

/-- C9 (amended): two runs of `analyzeWithRules` on identical text that
observe the same clock year yield identical finding lists up to the
generated identifiers, whatever id supplies the two runs draw. -/
theorem C9_deterministic_same_year (ids1 ids2 : Nat → String) (year : Nat) (text : Text) :
    (analyzeWithRules ids1 year text).map stripId =
      (analyzeWithRules ids2 year text).map stripId := by
  simp [analyzeWithRules, attachIds_map_stripId]

/-- C3 counterexample: on "audit 2030" the regex captures the two-digit
year 30; the claim's expansion rule (years < 50 map to the 1900s) gives
1930, more than 2 years before the current year 2026, so the claim demands
a HIGH finding — but the code expands 30 to 2030 (`year > 50 ? 1900+y :
2000+y`) and emits nothing. -/
theorem C3_cx_expansion_reversed :
    auditScan ("audit 2030".toList) = [(0, 10, 30)] ∧
    (if 30 < 50 then 1900 + 30 else 2000 + 30) = 1930 ∧
    1930 < 2026 - 2 ∧
    expandYear 30 = 2030 ∧
    checkDateAnomalies 2026 ("audit 2030".toList) = [] := by
  decide

theorem dateLoop_eq_filterMap (year : Nat) (text : Text) :
    ∀ ms : List (Nat × Nat × Nat),
      dateLoop year text ms =
        ms.filterMap (fun m =>
          if expandYear m.2.2 < year - 2 then some (mkDateFlag text m) else none) := by
  intro ms
  induction ms with
  | nil => rfl
  | cons m rest ih =>
    by_cases h : expandYear m.2.2 < year - 2 <;> simp [dateLoop, h, ih]

/-- C3 (amended): in the outdated-audit rule a captured two-digit year is
expanded with years above 50 mapping to the 1900s and all others (0–50) to
the 2000s, and a finding of severity HIGH and score 7 is emitted exactly
for those audit matches whose expanded year is more than 2 calendar years
before the current year. -/
theorem C3_date_anomaly_policy (year : Nat) (text : Text) :
    checkDateAnomalies year text =
      (auditScan text).filterMap (fun m =>
        if expandYear m.2.2 < year - 2 then some (mkDateFlag text m) else none) ∧
    (∀ y, expandYear y = if 50 < y then 1900 + y else 2000 + y) ∧
    (∀ m, (mkDateFlag text m).severity = "HIGH" ∧ (mkDateFlag text m).score = 7 ∧
      (mkDateFlag text m).title =
        "Outdated Financial Audit (" ++ toString (expandYear m.2.2) ++ ")") := by
  refine ⟨dateLoop_eq_filterMap year text _, fun y => rfl, fun m => ⟨rfl, rfl, rfl⟩⟩

theorem llmGo_eq_flatten (oracle : Nat → Except String LlmResponse) :
    ∀ (chunks : List Text) (i : Nat),
      llmGo oracle i chunks =
        ((List.range chunks.length).map (fun k => analyzeChunk (oracle (i + k)))).flatten := by
  intro chunks
  induction chunks with
  | nil => simp [llmGo]
  | cons c rest ih =>
    intro i
    have h1 : ((fun k => analyzeChunk (oracle (i + k))) ∘ Nat.succ)
        = fun k => analyzeChunk (oracle (i + 1 + k)) := by
      funext k
      have h2 : i + Nat.succ k = i + 1 + k := by omega
      simp [Function.comp, h2]
    simp only [llmGo, List.length_cons, List.range_succ_eq_map, List.map_cons,
      List.map_map, List.flatten_cons, Nat.add_zero, h1, ih]

/-- C2: `analyzeWithLLM` is a total function of the backend's per-chunk
outcomes: its result is exactly the concatenation, in chunk order, of each
chunk's findings, and a chunk whose backend call ends in an exception
(timeout, unparseable response, transport failure) contributes the empty
list while every other chunk's findings are preserved.  In particular the
call always returns normally (the whole-document catch-all is never
reached, as the loop body is total). -/
theorem C2_llm_failure_isolation (oracle : Nat → Except String LlmResponse) (text : Text) :
    analyzeWithLLM oracle text =
      ((List.range (chunkText text 15000).length).map
        (fun i => analyzeChunk (oracle i))).flatten ∧
    ∀ e, analyzeChunk (Except.error e) = [] := by
  refine ⟨?_, fun e => rfl⟩
  simpa using llmGo_eq_flatten oracle (chunkText text 15000) 0

/-- an item a model could return: a non-empty category and severity
outside the fixed enumerations. -/
def unknownEnumItem : LlmItem :=
  { category := some ("bogus"), severity := some ("SEVERE"), title := none,
    description := none, quote := none, location := none, score := none,
    recommendation := none }

/-- C5 counterexample: normalization passes unknown non-empty values
through unchanged, so a finding normalized from a model item with category
"bogus" and severity "SEVERE" carries a category outside the fixed
enumerated set and a severity outside {CRITICAL, HIGH, MEDIUM, LOW} —
contradicting the claim that unknown values are replaced by the
defaults. -/
theorem C5_cx_unknown_values_pass_through :
    (mkLlmFlag unknownEnumItem).category = "bogus" ∧
    (mkLlmFlag unknownEnumItem).category ∉ CATEGORIES ∧
    (mkLlmFlag unknownEnumItem).severity = "SEVERE" ∧
    (mkLlmFlag unknownEnumItem).severity ∉ SEVERITIES := by
  decide

/-- C5 (amended): a missing or empty category becomes "other" and a
missing or empty severity becomes "MEDIUM"; any non-empty supplied value
passes through unvalidated, so the normalized category (severity) lies in
the fixed enumeration only when the supplied value does or defaulting
occurred. -/
theorem C5_normalization_defaults (item : LlmItem) :
    ((item.category = none ∨ item.category = some ("")) →
      (mkLlmFlag item).category = "other") ∧
    (∀ s, item.category = some s → s ≠ "" → (mkLlmFlag item).category = s) ∧
    ((item.severity = none ∨ item.severity = some ("")) →
      (mkLlmFlag item).severity = "MEDIUM") ∧
    (∀ s, item.severity = some s → s ≠ "" → (mkLlmFlag item).severity = s) := by
  refine ⟨?_, ?_, ?_, ?_⟩
  · rintro (h | h) <;> simp [mkLlmFlag, jsOr, h]
  · intro s hs hne
    simp [mkLlmFlag, jsOr, hs, hne]
  · rintro (h | h) <;> simp [mkLlmFlag, jsOr, h]
  · intro s hs hne
    simp [mkLlmFlag, jsOr, hs, hne]

/-- an item with a missing category and an empty severity. -/
def defaultedItem : LlmItem :=
  { category := none, severity := some (""), title := none,
    description := none, quote := none, location := none, score := none,
    recommendation := none }

/-- C5 witness: defaults at a concrete item with missing category and
empty severity. -/
theorem C5_normalization_defaults_w :
    (mkLlmFlag defaultedItem).category = "other" ∧
    (mkLlmFlag defaultedItem).severity = "MEDIUM" :=
  ⟨(C5_normalization_defaults defaultedItem).1 (Or.inl rfl),
   (C5_normalization_defaults defaultedItem).2.2.1 (Or.inr rfl)⟩

/-- the claim's score formula: parse, clamp into [1,10], default 5 only
when unparseable (worded from the specification). -/
def specClampScore (v : Option Int) : Int :=
  match v with
  | none => 5
  | some n => min 10 (max 1 n)

/-- an item whose model-supplied score parses to 0. -/
def zeroScoreItem : LlmItem :=
  { category := none, severity := none, title := none, description := none,
    quote := none, location := none, score := some 0, recommendation := none }

/-- C6 counterexample: a parsed score of 0 is falsy in JS, so
`parseInt(item.score) || 5` defaults it to 5 — whereas the claim's
parse-then-clamp formula yields 1.  The normalized value (5) still lies in
[1,10], but not by clamping. -/
theorem C6_cx_zero_defaults_not_clamped :
    (mkLlmFlag zeroScoreItem).score = 5 ∧
    specClampScore (some 0) = 1 ∧
    normScore (some 0) ≠ specClampScore (some 0) := by
  decide

/-- C6 (amended): every normalized score lies in [1,10]; an unparseable
score or a parsed score of 0 (falsy) becomes 5, and any other parsed score
is clamped into [1,10] exactly as the claim states, so model-supplied 0
and 15 both normalize into [1,10] (to 5 and 10 respectively). -/
theorem C6_score_clamping (item : LlmItem) :
    1 ≤ (mkLlmFlag item).score ∧ (mkLlmFlag item).score ≤ 10 ∧
    ((item.score = none ∨ item.score = some 0) → (mkLlmFlag item).score = 5) ∧
    (∀ n, item.score = some n → n ≠ 0 →
      (mkLlmFlag item).score = specClampScore (some n)) := by
  refine ⟨?_, ?_, ?_, ?_⟩
  · rcases h : item.score with _ | n
    · simp [mkLlmFlag, normScore, h]
    · simp only [mkLlmFlag, normScore, h]
      split <;> omega
  · rcases h : item.score with _ | n
    · simp [mkLlmFlag, normScore, h]
    · simp only [mkLlmFlag, normScore, h]
      split <;> omega
  · rintro (h | h) <;> simp [mkLlmFlag, normScore, h]
  · intro n hn hne
    simp [mkLlmFlag, normScore, specClampScore, hn, hne]

/-- an item whose model-supplied score parses to 15. -/
def bigScoreItem : LlmItem :=
  { category := none, severity := none, title := none, description := none,
    quote := none, location := none, score := some 15, recommendation := none }

/-- C6 witness: the model-supplied scores 0 and 15 at concrete items. -/
theorem C6_score_clamping_w :
    (mkLlmFlag zeroScoreItem).score = 5 ∧
    (mkLlmFlag bigScoreItem).score = specClampScore (some 15) :=
  ⟨(C6_score_clamping zeroScoreItem).2.2.1 (Or.inr rfl),
   (C6_score_clamping bigScoreItem).2.2.2 15 rfl (by decide)⟩

theorem splitNN_ne_nil (l : Text) : splitNN l ≠ [] := by
  induction l using splitNN.induct with
  | case1 => simp [splitNN]
  | case2 rest ih => simp [splitNN]
  | case3 c rest h hnil ih => simp [splitNN, hnil]
  | case4 c rest h hd tl hcons ih => simp [splitNN, hcons]

theorem joinNN_cons (c : Text) (L : List Text) (h : L ≠ []) :
    joinNN (c :: L) = c ++ sepNN ++ joinNN L := by
  cases L with
  | nil => exact absurd rfl h
  | cons d ds => rfl

theorem joinNN_cons_head (c : Char) (hd : Text) (tl : List Text) :
    joinNN ((c :: hd) :: tl) = c :: joinNN (hd :: tl) := by
  cases tl <;> simp [joinNN]

theorem joinNN_splitNN (l : Text) : joinNN (splitNN l) = l := by
  induction l using splitNN.induct with
  | case1 => rfl
  | case2 rest ih =>
    rw [splitNN, joinNN_cons _ _ (splitNN_ne_nil rest), ih]
    rfl
  | case3 c rest h hnil ih => exact absurd hnil (splitNN_ne_nil rest)
  | case4 c rest h hd tl hcons ih =>
    rw [hcons] at ih
    simp only [splitNN, hcons]
    rw [joinNN_cons_head, ih]

theorem joinNN_append_cons (xs : List Text) (a b : Text) (ys : List Text) :
    joinNN (xs ++ (a ++ sepNN ++ b) :: ys) = joinNN (xs ++ a :: b :: ys) := by
  induction xs with
  | nil =>
    cases ys with
    | nil => simp [joinNN]
    | cons y ys' => simp [joinNN, List.append_assoc]
  | cons x xs' ih =>
    have h1 : xs' ++ (a ++ sepNN ++ b) :: ys ≠ [] := by simp
    have h2 : xs' ++ a :: b :: ys ≠ [] := by simp
    rw [List.cons_append, List.cons_append, joinNN_cons _ _ h1, joinNN_cons _ _ h2, ih]

theorem chunkGo_join (maxChars : Nat) :
    ∀ (paras : List Text) (curr : Text) (chunks : List Text),
      curr ≠ [] → (∀ p ∈ paras, p ≠ []) →
      joinNN (chunkGo maxChars paras curr chunks) = joinNN (chunks ++ curr :: paras) := by
  intro paras
  induction paras with
  | nil =>
    intro curr chunks hc _
    simp [chunkGo, hc]
  | cons para rest ih =>
    intro curr chunks hc hp
    have hpara : para ≠ [] := hp para (List.mem_cons_self _ _)
    have hrest : ∀ p ∈ rest, p ≠ [] := fun p hp' => hp p (List.mem_cons_of_mem _ hp')
    by_cases hcase : maxChars < curr.length + para.length
    · have hrec := ih para (chunks ++ [curr]) hpara hrest
      simp only [chunkGo, if_pos hcase, hc, if_pos, ite_true, ne_eq, not_false_eq_true]
      rw [hrec, List.append_assoc]
      rfl
    · have hcurr' : curr ++ sepNN ++ para ≠ [] := by
        intro he
        exact hc (List.append_eq_nil.mp (List.append_eq_nil.mp he).1).1
      have hrec := ih (curr ++ sepNN ++ para) chunks hcurr' hrest
      simp only [chunkGo, if_neg hcase, hc, ite_true, ne_eq, not_false_eq_true]
      rw [hrec, joinNN_append_cons]

theorem chunkGo_start (maxChars : Nat) (p : Text) (rest : List Text) :
    chunkGo maxChars (p :: rest) [] [] = chunkGo maxChars rest p [] := by
  simp [chunkGo]

theorem chunkGo_bound (maxChars : Nat) (paras0 : List Text) :
    ∀ (paras : List Text) (curr : Text) (chunks : List Text),
      (∀ p ∈ paras, p ∈ paras0) →
      (curr ∈ paras0 ∨ curr.length ≤ maxChars + 2) →
      (∀ c ∈ chunks, c ∈ paras0 ∨ c.length ≤ maxChars + 2) →
      ∀ c ∈ chunkGo maxChars paras curr chunks, c ∈ paras0 ∨ c.length ≤ maxChars + 2 := by
  intro paras
  induction paras with
  | nil =>
    intro curr chunks _ hcur hch c hcmem
    simp only [chunkGo] at hcmem
    by_cases hc : curr ≠ []
    · rw [if_pos hc] at hcmem
      rcases List.mem_append.mp hcmem with h | h
      · exact hch c h
      · simp at h
        subst h
        exact hcur
    · rw [if_neg hc] at hcmem
      exact hch c hcmem
  | cons para rest ih =>
    intro curr chunks hsub hcur hch c hcmem
    have hpara0 : para ∈ paras0 := hsub para (List.mem_cons_self _ _)
    have hsub' : ∀ p ∈ rest, p ∈ paras0 := fun p hp => hsub p (List.mem_cons_of_mem _ hp)
    simp only [chunkGo] at hcmem
    by_cases hcase : maxChars < curr.length + para.length
    · rw [if_pos hcase] at hcmem
      refine ih para _ hsub' (Or.inl hpara0) ?_ c hcmem
      intro d hd
      by_cases hc : curr ≠ []
      · rw [if_pos hc] at hd
        rcases List.mem_append.mp hd with h | h
        · exact hch d h
        · simp at h
          subst h
          exact hcur
      · rw [if_neg hc] at hd
        exact hch d hd
    · rw [if_neg hcase] at hcmem
      by_cases hc : curr ≠ []
      · rw [if_pos hc] at hcmem
        refine ih _ chunks hsub' (Or.inr ?_) hch c hcmem
        have hlen : curr.length + para.length ≤ maxChars := Nat.le_of_not_lt hcase
        simp only [List.length_append, sepNN, List.length_cons, List.length_nil]
        omega
      · rw [if_neg hc] at hcmem
        exact ih para chunks hsub' (Or.inl hpara0) hch c hcmem

/-- C4 (amended): when no paragraph of the text is empty, rejoining the
chunker's output with the paragraph separator reproduces the original text
exactly; and every output segment is either one of the text's paragraphs
(covering the accepted oversized-paragraph case) or of length at most
`maxChars + 2` (the greedy budget check ignores the two separator
characters it prepends, so a closed multi-paragraph chunk can exceed
`maxChars` by up to 2). -/
theorem C4_chunk_reconstruction (text : Text) (maxChars : Nat)
    (hp : ∀ p ∈ splitNN text, p ≠ []) :
    joinNN (chunkText text maxChars) = text ∧
    ∀ c ∈ chunkText text maxChars, c ∈ splitNN text ∨ c.length ≤ maxChars + 2 := by
  by_cases hle : text.length ≤ maxChars
  · constructor
    · simp [chunkText, hle, joinNN]
    · intro c hc
      simp only [chunkText, if_pos hle, List.mem_singleton] at hc
      subst hc
      exact Or.inr (by omega)
  · have hs : ∃ p rest, splitNN text = p :: rest := by
      cases h : splitNN text with
      | nil => exact absurd h (splitNN_ne_nil text)
      | cons p rest => exact ⟨p, rest, rfl⟩
    obtain ⟨p, rest, hs⟩ := hs
    constructor
    · rw [chunkText, if_neg hle, hs, chunkGo_start]
      have hp' : p ≠ [] := hp p (by rw [hs]; exact List.mem_cons_self _ _)
      have hrest : ∀ q ∈ rest, q ≠ [] := fun q hq =>
        hp q (by rw [hs]; exact List.mem_cons_of_mem _ hq)
      rw [chunkGo_join maxChars rest p [] hp' hrest]
      have he : joinNN ([] ++ p :: rest) = joinNN (splitNN text) := by
        rw [hs]
        rfl
      rw [he, joinNN_splitNN]
    · intro c hc
      rw [chunkText, if_neg hle] at hc
      exact chunkGo_bound maxChars (splitNN text) (splitNN text) [] []
        (fun q hq => hq) (Or.inr (by simp)) (by simp) c hc

/-- C4 counterexample: with budget 4, the text "aa\n\nbb" (two paragraphs
of 2 characters) is emitted as the single 6-character chunk "aa\n\nbb" —
not a single paragraph, and over budget, because the greedy check
`curr.length + para.length > maxChars` ignores the 2-character separator
it then prepends.  And with budget 2, the text "\n\nabc" (an empty leading
paragraph) loses its leading separator: the chunks rejoin to "abc". -/
theorem C4_cx_budget_and_empty_paragraph :
    (¬ ∀ c ∈ chunkText ("aa\n\nbb".toList) 4,
        c.length ≤ 4 ∨ c ∈ splitNN ("aa\n\nbb".toList)) ∧
    joinNN (chunkText ("\n\nabc".toList) 2) ≠ "\n\nabc".toList := by
  decide

/-- C4 witness: the amended statement at the concrete text "aa\n\nbb" with
budget 4. -/
theorem C4_chunk_reconstruction_w :
    joinNN (chunkText ("aa\n\nbb".toList) 4) = "aa\n\nbb".toList ∧
    ∀ c ∈ chunkText ("aa\n\nbb".toList) 4,
      c ∈ splitNN ("aa\n\nbb".toList) ∨ c.length ≤ 4 + 2 :=
  C4_chunk_reconstruction ("aa\n\nbb".toList) 4 (by decide)

theorem string_append_ne (p s b : String) (x y : Char) (px py : List Char)
    (hp : p.data = x :: px) (hb : b.data = y :: py) (hxy : x ≠ y) : p ++ s ≠ b := by
  intro he
  have hd : (p ++ s).data = b.data := congrArg String.data he
  have hd2 : p.data ++ s.data = b.data := hd
  rw [hp, hb] at hd2
  simp only [List.cons_append, List.cons.injEq] at hd2
  exact hxy hd2.1

theorem checkOffshore_fields (text : Text) :
    ∀ f ∈ checkOffshoreJurisdictions text,
      f.category = "jurisdiction" ∧ f.title ≠ "Missing Confidentiality Provision" := by
  intro f hf
  simp only [checkOffshoreJurisdictions, List.mem_flatMap, List.mem_map] at hf
  obtain ⟨j, hj, m, hm, rfl⟩ := hf
  exact ⟨rfl, string_append_ne _ _ _ 'O' 'M' _ _ rfl rfl (by decide)⟩

theorem checkWeasel_fields (text : Text) :
    ∀ f ∈ checkWeaselWords text,
      f.category = "vague_language" ∧ f.title ≠ "Missing Confidentiality Provision" := by
  intro f hf
  simp only [checkWeaselWords, List.mem_flatMap] at hf
  obtain ⟨w, hw, hf⟩ := hf
  by_cases hc : 3 < (weaselScan w text).length
  · rw [if_pos hc] at hf
    simp only [List.mem_singleton] at hf
    subst hf
    exact ⟨rfl, string_append_ne _ _ _ 'E' 'M' _ _ rfl rfl (by decide)⟩
  · rw [if_neg hc] at hf
    simp at hf

theorem checkHighRisk_fields (text : Text) :
    ∀ f ∈ checkHighRiskPhrases text,
      f.category = "missing_info" ∧ f.title ≠ "Missing Confidentiality Provision" := by
  intro f hf
  simp only [checkHighRiskPhrases, List.mem_flatMap, List.mem_map] at hf
  obtain ⟨ph, hp, m, hm, rfl⟩ := hf
  exact ⟨rfl, string_append_ne _ _ _ 'D' 'M' _ _ rfl rfl (by decide)⟩

theorem schedLoop_fields (text : Text) :
    ∀ (inds : List String) (f : RedFlagCore), f ∈ schedLoop text inds →
      f.category = "missing_info" ∧ f.title ≠ "Missing Confidentiality Provision" := by
  intro inds
  induction inds with
  | nil =>
    intro f hf
    simp [schedLoop] at hf
  | cons ind rest ih =>
    intro f hf
    simp only [schedLoop] at hf
    split at hf
    · split at hf
      · simp only [List.mem_singleton] at hf
        subst hf
        exact ⟨rfl, show ("Missing or Incomplete Schedules" : String) ≠ "Missing Confidentiality Provision" from by decide⟩
      · exact ih f hf
    · exact ih f hf

theorem dateLoop_fields (year : Nat) (text : Text) :
    ∀ (ms : List (Nat × Nat × Nat)) (f : RedFlagCore), f ∈ dateLoop year text ms →
      f.category = "financial" ∧ f.title ≠ "Missing Confidentiality Provision" := by
  intro ms
  induction ms with
  | nil =>
    intro f hf
    simp [dateLoop] at hf
  | cons m rest ih =>
    intro f hf
    simp only [dateLoop] at hf
    by_cases hc : expandYear m.2.2 < year - 2
    · rw [if_pos hc, List.mem_cons] at hf
      rcases hf with hf | hf
      · subst hf
        exact ⟨rfl, string_append_ne _ _ _ 'O' 'M' _ _ rfl rfl (by decide)⟩
      · exact ih f hf
    · rw [if_neg hc] at hf
      exact ih f hf

theorem checkPayment_fields (text : Text) :
    ∀ f ∈ checkPaymentRedFlags text,
      f.category = "financial" ∧ f.title ≠ "Missing Confidentiality Provision" := by
  intro f hf
  simp only [checkPaymentRedFlags, List.mem_append, List.mem_map] at hf
  rcases hf with ⟨m, hm, rfl⟩ | ⟨m, hm, rfl⟩
  · exact ⟨rfl, show ("Undefined Earnout Targets" : String) ≠ "Missing Confidentiality Provision" from by decide⟩
  · exact ⟨rfl, show ("Undefined Deferred Payment Terms" : String) ≠ "Missing Confidentiality Provision" from by decide⟩

theorem liabLoop_fields (text : Text) :
    ∀ (ms : List (Nat × Nat × Nat)) (f : RedFlagCore), f ∈ liabLoop text ms →
      f.category = "liability" ∧ f.title ≠ "Missing Confidentiality Provision" := by
  intro ms
  induction ms with
  | nil =>
    intro f hf
    simp [liabLoop] at hf
  | cons m rest ih =>
    intro f hf
    simp only [liabLoop] at hf
    by_cases hc : m.2.2 < 12
    · rw [if_pos hc, List.mem_cons] at hf
      rcases hf with hf | hf
      · subst hf
        exact ⟨rfl, string_append_ne _ _ _ 'S' 'M' _ _ rfl rfl (by decide)⟩
      · exact ih f hf
    · rw [if_neg hc] at hf
      exact ih f hf

theorem concLoop_fields (text : Text) :
    ∀ (ms : List (Nat × Nat × Nat)) (f : RedFlagCore), f ∈ concLoop text ms →
      f.category = "customer" ∧ f.title ≠ "Missing Confidentiality Provision" := by
  intro ms
  induction ms with
  | nil =>
    intro f hf
    simp [concLoop] at hf
  | cons m rest ih =>
    intro f hf
    simp only [concLoop] at hf
    by_cases hc : 50 < m.2.2
    · rw [if_pos hc, List.mem_cons] at hf
      rcases hf with hf | hf
      · subst hf
        exact ⟨rfl, string_append_ne _ _ _ 'H' 'M' _ _ rfl rfl (by decide)⟩
      · exact ih f hf
    · rw [if_neg hc] at hf
      exact ih f hf

theorem checkProvisions_category (text : Text) :
    ∀ f ∈ checkRequiredProvisions text, f.category ≠ "vague_language" := by
  intro f hf
  simp only [checkRequiredProvisions, List.mem_flatMap] at hf
  obtain ⟨p, hp, hf⟩ := hf
  split at hf
  · simp at hf
  · simp only [List.mem_singleton] at hf
    subst hf
    simp only [mkProvisionFlag]
    split <;> decide

theorem checkRegulatory_fields (text : Text) :
    ∀ f ∈ checkRegulatoryRisks text,
      f.category = "compliance" ∧ f.title ≠ "Missing Confidentiality Provision" := by
  intro f hf
  simp only [checkRegulatoryRisks, regulatoryKeywords, List.mem_flatMap, List.mem_map,
    List.mem_cons, List.not_mem_nil, or_false] at hf
  obtain ⟨tk, htk, m, hm, rfl⟩ := hf
  rcases htk with h | h | h <;> subst h
  · exact ⟨rfl, show ("Federal Energy Regulatory Commission (FERC) Approval Required" : String) ≠ "Missing Confidentiality Provision" from by decide⟩
  · exact ⟨rfl, show ("Material Regulatory Closing Condition" : String) ≠ "Missing Confidentiality Provision" from by decide⟩
  · exact ⟨rfl, show ("Antitrust/Competition Filing Required" : String) ≠ "Missing Confidentiality Provision" from by decide⟩

theorem transLoop_fields (text : Text) :
    ∀ (ms : List (Nat × Nat × Nat)) (f : RedFlagCore), f ∈ transLoop text ms →
      f.category = "operational" ∧ f.title ≠ "Missing Confidentiality Provision" := by
  intro ms
  induction ms with
  | nil =>
    intro f hf
    simp [transLoop] at hf
  | cons m rest ih =>
    intro f hf
    simp only [transLoop] at hf
    by_cases hc : matchDays text m < 90
    · rw [if_pos hc, List.mem_cons] at hf
      rcases hf with hf | hf
      · subst hf
        exact ⟨rfl, string_append_ne _ _ _ 'S' 'M' _ _ rfl rfl (by decide)⟩
      · exact ih f hf
    · rw [if_neg hc] at hf
      exact ih f hf

theorem noticeLoop_fields (text : Text) :
    ∀ (ms : List (Nat × Nat × Nat)) (f : RedFlagCore), f ∈ noticeLoop text ms →
      f.category = "liability" ∧ f.title ≠ "Missing Confidentiality Provision" := by
  intro ms
  induction ms with
  | nil =>
    intro f hf
    simp [noticeLoop] at hf
  | cons m rest ih =>
    intro f hf
    simp only [noticeLoop] at hf
    by_cases hc : matchDays text m < 90
    · rw [if_pos hc, List.mem_cons] at hf
      rcases hf with hf | hf
      · subst hf
        exact ⟨rfl, string_append_ne _ _ _ 'A' 'M' _ _ rfl rfl (by decide)⟩
      · exact ih f hf
    · rw [if_neg hc] at hf
      exact ih f hf

theorem checkStock_fields (text : Text) :
    ∀ f ∈ checkStockConsideration text,
      f.category = "financial" ∧ f.title ≠ "Missing Confidentiality Provision" := by
  intro f hf
  simp only [checkStockConsideration, List.mem_map] at hf
  obtain ⟨m, hm, rfl⟩ := hf
  exact ⟨rfl, string_append_ne _ _ _ 'S' 'M' _ _ rfl rfl (by decide)⟩

theorem checkSched_fields (text : Text) :
    ∀ f ∈ checkMissingSchedules text,
      f.category = "missing_info" ∧ f.title ≠ "Missing Confidentiality Provision" :=
  fun f hf => schedLoop_fields text missingIndicators f hf

theorem checkDate_fields (year : Nat) (text : Text) :
    ∀ f ∈ checkDateAnomalies year text,
      f.category = "financial" ∧ f.title ≠ "Missing Confidentiality Provision" :=
  fun f hf => dateLoop_fields year text (auditScan text) f hf

theorem checkLiab_fields (text : Text) :
    ∀ f ∈ checkLiabilityLimitations text,
      f.category = "liability" ∧ f.title ≠ "Missing Confidentiality Provision" :=
  fun f hf => liabLoop_fields text _ f hf

theorem checkConc_fields (text : Text) :
    ∀ f ∈ checkCustomerConcentration text,
      f.category = "customer" ∧ f.title ≠ "Missing Confidentiality Provision" :=
  fun f hf => concLoop_fields text _ f hf

theorem checkShortNotice_fields (text : Text) :
    ∀ f ∈ checkShortNoticePeriods text,
      (f.category = "operational" ∨ f.category = "liability") ∧
        f.title ≠ "Missing Confidentiality Provision" := by
  intro f hf
  rcases List.mem_append.mp hf with h | h
  · obtain ⟨h1, h2⟩ := transLoop_fields text _ f h
    exact ⟨Or.inl h1, h2⟩
  · obtain ⟨h1, h2⟩ := noticeLoop_fields text _ f h
    exact ⟨Or.inr h1, h2⟩

theorem countP_eq_zero_of (q : RedFlagCore → Bool) (l : List RedFlagCore)
    (h : ∀ f ∈ l, q f = false) : List.countP q l = 0 :=
  List.countP_eq_zero.mpr (fun a ha => by simp [h a ha])

theorem countP_ite (q : RedFlagCore → Bool) (c : Prop) [Decidable c] (x : RedFlagCore) :
    List.countP q (if c then ([] : List RedFlagCore) else [x]) =
      if c then 0 else (if q x then 1 else 0) := by
  split <;> simp [List.countP_cons]

theorem provisions_countP_MCP (text : Text)
    (hconf : ∀ k ∈ provConfidentiality.keywords, fuzzyFound k text = false) :
    List.countP (fun g => g.title == "Missing Confidentiality Provision")
      (checkRequiredProvisions text) = 1 := by
  have hany : (provConfidentiality.keywords.any (fun k => fuzzyFound k text)) = false := by
    rw [List.any_eq_false]
    intro k hk
    simp [hconf k hk]
  have h1 : ((mkProvisionFlag provEscrow).title == "Missing Confidentiality Provision") = false := by decide
  have h2 : ((mkProvisionFlag provSurvival).title == "Missing Confidentiality Provision") = false := by decide
  have h3 : ((mkProvisionFlag provMac).title == "Missing Confidentiality Provision") = false := by decide
  have h4 : ((mkProvisionFlag provLiabilityCap).title == "Missing Confidentiality Provision") = false := by decide
  have h5 : ((mkProvisionFlag provEnvironmental).title == "Missing Confidentiality Provision") = false := by decide
  have h6 : ((mkProvisionFlag provEmployeeBenefits).title == "Missing Confidentiality Provision") = false := by decide
  have h7 : ((mkProvisionFlag provConfidentiality).title == "Missing Confidentiality Provision") = true := by decide
  simp only [checkRequiredProvisions, requiredProvisions, List.flatMap_cons, List.flatMap_nil,
    List.append_nil, List.countP_append, countP_ite, h1, h2, h3, h4, h5, h6, h7, hany,
    if_false, ite_self]
  simp

theorem provisions_MCP_fields (text : Text) :
    ∀ g ∈ checkRequiredProvisions text, g.title = "Missing Confidentiality Provision" →
      g.severity = "CRITICAL" ∧ g.score = 10 ∧
        g.location = "N/A - Provision not found in document" := by
  intro g hg ht
  simp only [checkRequiredProvisions, List.mem_flatMap] at hg
  obtain ⟨p, hp, hg⟩ := hg
  have hgp : g = mkProvisionFlag p := by
    revert hg
    split
    · intro h
      simp at h
    · intro h
      simpa using h
  subst hgp
  simp only [requiredProvisions, List.mem_cons, List.not_mem_nil, or_false] at hp
  rcases hp with h|h|h|h|h|h|h <;> subst h
  · exact absurd ht (by decide)
  · exact absurd ht (by decide)
  · exact absurd ht (by decide)
  · exact absurd ht (by decide)
  · exact absurd ht (by decide)
  · exact absurd ht (by decide)
  · exact ⟨by decide, by decide, by decide⟩

/-- C8: when none of the confidentiality keyword synonyms fuzzy-matches the
text (in normal or letter-spaced form), `analyzeWithRules` yields exactly
one finding titled "Missing Confidentiality Provision", and that finding
has severity CRITICAL, score 10, and the sentinel not-found location. -/
theorem C8_missing_confidentiality (ids : Nat → String) (year : Nat) (text : Text)
    (hconf : ∀ k ∈ provConfidentiality.keywords, fuzzyFound k text = false) :
    List.countP (fun f => f.title == "Missing Confidentiality Provision")
      (analyzeWithRules ids year text) = 1 ∧
    ∀ f ∈ analyzeWithRules ids year text,
      f.title = "Missing Confidentiality Provision" →
        f.severity = "CRITICAL" ∧ f.score = 10 ∧
          f.location = "N/A - Provision not found in document" := by
  constructor
  · rw [analyzeWithRules, countP_attachIds (fun f => f.title == "Missing Confidentiality Provision")
      (fun g => g.title == "Missing Confidentiality Provision") (fun f => rfl) ids 0]
    have z1 := countP_eq_zero_of (fun g => g.title == "Missing Confidentiality Provision")
      (checkOffshoreJurisdictions text)
      (fun f hf => by simp [(checkOffshore_fields text f hf).2])
    have z2 := countP_eq_zero_of (fun g => g.title == "Missing Confidentiality Provision")
      (checkWeaselWords text)
      (fun f hf => by simp [(checkWeasel_fields text f hf).2])
    have z3 := countP_eq_zero_of (fun g => g.title == "Missing Confidentiality Provision")
      (checkHighRiskPhrases text)
      (fun f hf => by simp [(checkHighRisk_fields text f hf).2])
    have z4 := countP_eq_zero_of (fun g => g.title == "Missing Confidentiality Provision")
      (checkMissingSchedules text)
      (fun f hf => by simp [(checkSched_fields text f hf).2])
    have z5 := countP_eq_zero_of (fun g => g.title == "Missing Confidentiality Provision")
      (checkDateAnomalies year text)
      (fun f hf => by simp [(checkDate_fields year text f hf).2])
    have z6 := countP_eq_zero_of (fun g => g.title == "Missing Confidentiality Provision")
      (checkPaymentRedFlags text)
      (fun f hf => by simp [(checkPayment_fields text f hf).2])
    have z7 := countP_eq_zero_of (fun g => g.title == "Missing Confidentiality Provision")
      (checkLiabilityLimitations text)
      (fun f hf => by simp [(checkLiab_fields text f hf).2])
    have z8 := countP_eq_zero_of (fun g => g.title == "Missing Confidentiality Provision")
      (checkCustomerConcentration text)
      (fun f hf => by simp [(checkConc_fields text f hf).2])
    have z10 := countP_eq_zero_of (fun g => g.title == "Missing Confidentiality Provision")
      (checkRegulatoryRisks text)
      (fun f hf => by simp [(checkRegulatory_fields text f hf).2])
    have z11 := countP_eq_zero_of (fun g => g.title == "Missing Confidentiality Provision")
      (checkShortNoticePeriods text)
      (fun f hf => by simp [(checkShortNotice_fields text f hf).2])
    have z12 := countP_eq_zero_of (fun g => g.title == "Missing Confidentiality Provision")
      (checkStockConsideration text)
      (fun f hf => by simp [(checkStock_fields text f hf).2])
    have hp := provisions_countP_MCP text hconf
    simp only [analyzeRulesCore, ruleCatalog, List.map_cons, List.map_nil,
      List.flatten_cons, List.flatten_nil, List.append_nil, List.countP_append,
      z1, z2, z3, z4, z5, z6, z7, z8, z10, z11, z12, hp]
  · intro f hf ht
    obtain ⟨g, hg, he⟩ := mem_attachIds ids 0 _ f hf
    have htg : g.title = "Missing Confidentiality Provision" := by
      rw [← he]
      exact ht
    simp only [analyzeRulesCore, ruleCatalog, List.map_cons, List.map_nil,
      List.flatten_cons, List.flatten_nil, List.append_nil, List.mem_append] at hg
    rcases hg with h|h|h|h|h|h|h|h|h|h|h|h
    · exact absurd htg (checkOffshore_fields text g h).2
    · exact absurd htg (checkWeasel_fields text g h).2
    · exact absurd htg (checkHighRisk_fields text g h).2
    · exact absurd htg (checkSched_fields text g h).2
    · exact absurd htg (checkDate_fields year text g h).2
    · exact absurd htg (checkPayment_fields text g h).2
    · exact absurd htg (checkLiab_fields text g h).2
    · exact absurd htg (checkConc_fields text g h).2
    · obtain ⟨h1, h2, h3⟩ := provisions_MCP_fields text g h htg
      rw [← he] at h1 h2 h3
      exact ⟨h1, h2, h3⟩
    · exact absurd htg (checkRegulatory_fields text g h).2
    · exact absurd htg (checkShortNotice_fields text g h).2
    · exact absurd htg (checkStock_fields text g h).2

/-- C8 witness: the empty document contains no confidentiality synonym, and
rule analysis of it produces exactly one "Missing Confidentiality
Provision" finding. -/
theorem C8_missing_confidentiality_w :
    List.countP (fun f => f.title == "Missing Confidentiality Provision")
      (analyzeWithRules (fun _ => "id") 2026 []) = 1 :=
  (C8_missing_confidentiality (fun _ => "id") 2026 [] (by decide)).1

theorem flatMap_ite_singleton {α β : Type} (l : List α) (p : α → Prop) [DecidablePred p]
    (g : α → β) :
    l.flatMap (fun a => if p a then [g a] else []) =
      (l.filter (fun a => decide (p a))).map g := by
  induction l with
  | nil => rfl
  | cons a rest ih => by_cases h : p a <;> simp [h, ih, List.filter_cons]

/-- C10: the vague-language check emits at most one finding per listed
hedge term — its output is the image of the filtered term list — so a
whole `analyzeWithRules` run carries at most 7 vague_language findings
(no other rule uses that category). -/
theorem C10_vague_language_bounded (ids : Nat → String) (year : Nat) (text : Text) :
    List.countP (fun f => f.category == "vague_language")
      (analyzeWithRules ids year text) ≤ 7 ∧
    checkWeaselWords text =
      (WEASEL_WORDS.filter (fun w => decide (3 < (weaselScan w text).length))).map
        (mkWeaselFlag text) := by
  constructor
  · rw [analyzeWithRules, countP_attachIds (fun f => f.category == "vague_language")
      (fun g => g.category == "vague_language") (fun f => rfl) ids 0]
    have z1 := countP_eq_zero_of (fun g => g.category == "vague_language")
      (checkOffshoreJurisdictions text)
      (fun f hf => by simp [(checkOffshore_fields text f hf).1])
    have z3 := countP_eq_zero_of (fun g => g.category == "vague_language")
      (checkHighRiskPhrases text)
      (fun f hf => by simp [(checkHighRisk_fields text f hf).1])
    have z4 := countP_eq_zero_of (fun g => g.category == "vague_language")
      (checkMissingSchedules text)
      (fun f hf => by simp [(checkSched_fields text f hf).1])
    have z5 := countP_eq_zero_of (fun g => g.category == "vague_language")
      (checkDateAnomalies year text)
      (fun f hf => by simp [(checkDate_fields year text f hf).1])
    have z6 := countP_eq_zero_of (fun g => g.category == "vague_language")
      (checkPaymentRedFlags text)
      (fun f hf => by simp [(checkPayment_fields text f hf).1])
    have z7 := countP_eq_zero_of (fun g => g.category == "vague_language")
      (checkLiabilityLimitations text)
      (fun f hf => by simp [(checkLiab_fields text f hf).1])
    have z8 := countP_eq_zero_of (fun g => g.category == "vague_language")
      (checkCustomerConcentration text)
      (fun f hf => by simp [(checkConc_fields text f hf).1])
    have z9 := countP_eq_zero_of (fun g => g.category == "vague_language")
      (checkRequiredProvisions text)
      (fun f hf => by simp [checkProvisions_category text f hf])
    have z10 := countP_eq_zero_of (fun g => g.category == "vague_language")
      (checkRegulatoryRisks text)
      (fun f hf => by simp [(checkRegulatory_fields text f hf).1])
    have z11 := countP_eq_zero_of (fun g => g.category == "vague_language")
      (checkShortNoticePeriods text)
      (fun f hf => by
        rcases (checkShortNotice_fields text f hf).1 with hc | hc <;> simp [hc])
    have z12 := countP_eq_zero_of (fun g => g.category == "vague_language")
      (checkStockConsideration text)
      (fun f hf => by simp [(checkStock_fields text f hf).1])
    have hw : List.countP (fun g => g.category == "vague_language")
        (checkWeaselWords text) ≤ 7 := by
      refine le_trans (List.countP_le_length _) ?_
      simp only [checkWeaselWords]
      rw [flatMap_ite_singleton WEASEL_WORDS
        (fun w => 3 < (weaselScan w text).length) (mkWeaselFlag text)]
      rw [List.length_map]
      exact List.length_filter_le _ WEASEL_WORDS
    simp only [analyzeRulesCore, ruleCatalog, List.map_cons, List.map_nil,
      List.flatten_cons, List.flatten_nil, List.append_nil, List.countP_append,
      z1, z3, z4, z5, z6, z7, z8, z9, z10, z11, z12, Nat.add_zero, Nat.zero_add]
    simpa using hw
  · exact flatMap_ite_singleton WEASEL_WORDS
      (fun w => 3 < (weaselScan w text).length) (mkWeaselFlag text)

theorem dropWhile_eq_drop (p : Char → Bool) :
    ∀ l : Text, l.dropWhile p = l.drop (l.takeWhile p).length
  | [] => rfl
  | c :: rest => by
    by_cases h : p c
    · simp [List.dropWhile_cons, List.takeWhile_cons, h, dropWhile_eq_drop p rest]
    · simp [List.dropWhile_cons, List.takeWhile_cons, h]

theorem length_takeWhile_le_of_false (p : Char → Bool) :
    ∀ (l : Text) (i : Nat), i < l.length → p (l.getD i ' ') = false →
      (l.takeWhile p).length ≤ i
  | [], i, hi, _ => by simp at hi
  | c :: rest, i, hi, hp => by
    by_cases h : p c
    · cases i with
      | zero =>
        rw [List.getD_cons_zero] at hp
        rw [hp] at h
        exact absurd h (by simp)
      | succ i' =>
        simp only [List.takeWhile_cons, h, if_true, List.length_cons]
        have hrec := length_takeWhile_le_of_false p rest i'
          (by simpa using hi) (by simpa using hp)
        omega
    · simp [List.takeWhile_cons, h]

theorem getD_take_drop (text : Text) (cs n i : Nat) (hi : i < n)
    (hilen : cs + i < text.length) :
    ((text.drop cs).take n).getD i ' ' = text.getD (cs + i) ' ' := by
  have hlt : i < ((text.drop cs).take n).length := by
    rw [List.length_take, List.length_drop]
    omega
  rw [List.getD_eq_getElem _ _ hlt, List.getD_eq_getElem _ _ hilen]
  rw [List.getElem_take, List.getElem_drop]

theorem getD_reverse (l : Text) (i : Nat) (hi : i < l.length) :
    l.reverse.getD i ' ' = l.getD (l.length - 1 - i) ' ' := by
  have h1 : i < l.reverse.length := by
    rw [List.length_reverse]
    omega
  have h2 : l.length - 1 - i < l.length := by omega
  rw [List.getD_eq_getElem _ _ h1, List.getD_eq_getElem _ _ h2, List.getElem_reverse]

theorem reverse_drop_reverse (l : Text) (k : Nat) :
    (l.reverse.drop k).reverse = l.take (l.length - k) := by
  by_cases hk : k ≤ l.length
  · have h := @List.reverse_take _ l (l.length - k)
    rw [Nat.sub_sub_self hk] at h
    rw [← h, List.reverse_reverse]
  · have h1 : l.reverse.drop k = [] := by
      apply List.drop_eq_nil_of_le
      rw [List.length_reverse]
      omega
    have h2 : l.length - k = 0 := by omega
    simp [h1, h2]

theorem length_takeWhile_le_self (p : Char → Bool) :
    ∀ l : Text, (l.takeWhile p).length ≤ l.length
  | [] => by simp
  | c :: rest => by
    by_cases h : p c
    · simp only [List.takeWhile_cons, h, if_true, List.length_cons]
      have hrec := length_takeWhile_le_self p rest
      omega
    · simp [List.takeWhile_cons, h]

/-- C7 (amended): `getContext` returns the clamped window
`text[max(0, start-radius) .. min(len, end+radius))`, trimmed, with an
ellipsis marker on the left exactly when the window's left bound is above
0 and on the right exactly when its right bound is below the text length;
and — provided the span is non-degenerate and its first and last
characters are not whitespace (as for every rule-engine match, whose
patterns begin and end with alphanumeric characters) — the trimmed core is
a contiguous slice of the input containing the whole match span.  The
function is total, so degenerate inputs cannot fail. -/
theorem C7_getContext_window (text : Text) (start en chars : Nat)
    (h1 : start < en) (h2 : en ≤ text.length)
    (h3 : isJsWs (text.getD start ' ') = false)
    (h4 : isJsWs (text.getD (en - 1) ' ') = false) :
    getContext text start en chars =
      (if 0 < start - chars then dots else []) ++
        jsTrim ((text.drop (start - chars)).take
          (min text.length (en + chars) - (start - chars))) ++
        (if min text.length (en + chars) < text.length then dots else []) ∧
    ∃ i j, i ≤ start ∧ en ≤ j ∧ j ≤ text.length ∧
      jsTrim ((text.drop (start - chars)).take
        (min text.length (en + chars) - (start - chars))) =
        (text.drop i).take (j - i) := by
  refine ⟨rfl, ?_⟩
  set cs := start - chars with hcsdef
  set ce := min text.length (en + chars) with hcedef
  set L := (text.drop cs).take (ce - cs) with hLdef
  have hcs : cs ≤ start := Nat.sub_le _ _
  have hce1 : en ≤ ce := le_min h2 (Nat.le_add_right _ _)
  have hce2 : ce ≤ text.length := min_le_left _ _
  have hLlen : L.length = ce - cs := by
    rw [hLdef, List.length_take, List.length_drop]
    omega
  set k := (L.takeWhile isJsWs).length with hkdef
  have hkle : k ≤ start - cs := by
    apply length_takeWhile_le_of_false
    · rw [hLlen]
      omega
    · have hidx := getD_take_drop text cs (ce - cs) (start - cs) (by omega) (by omega)
      have he : cs + (start - cs) = start := by omega
      rw [he] at hidx
      rw [← hLdef] at hidx
      rw [hidx]
      exact h3
  set M := L.drop k with hMdef
  have hML : M = (text.drop (cs + k)).take (ce - cs - k) := by
    rw [hMdef, hLdef, List.drop_take, List.drop_drop]
  have hMlen : M.length = ce - cs - k := by
    rw [hMdef, List.length_drop, hLlen]
  have hkstart : cs + k ≤ start := by omega
  set k2 := (M.reverse.takeWhile isJsWs).length with hk2def
  have hk2M : k2 ≤ M.length := by
    rw [hk2def]
    calc (M.reverse.takeWhile isJsWs).length ≤ M.reverse.length :=
          length_takeWhile_le_self _ _
      _ = M.length := List.length_reverse _
  have hk2le : k2 ≤ ce - en := by
    apply length_takeWhile_le_of_false
    · rw [List.length_reverse, hMlen]
      omega
    · have hlt : ce - en < M.length := by
        rw [hMlen]
        omega
      rw [getD_reverse M (ce - en) hlt]
      rw [hMlen]
      have h5 : ce - cs - k - 1 - (ce - en) = en - 1 - (cs + k) := by omega
      rw [h5, hML]
      rw [getD_take_drop text (cs + k) (ce - cs - k) (en - 1 - (cs + k))
        (by omega) (by omega)]
      have h6 : cs + k + (en - 1 - (cs + k)) = en - 1 := by omega
      rw [h6]
      exact h4
  have hcore : jsTrim L = (text.drop (cs + k)).take (M.length - k2) := by
    calc jsTrim L = trimRight M := by
          rw [jsTrim, dropWhile_eq_drop isJsWs L, ← hkdef, ← hMdef]
      _ = (M.reverse.drop k2).reverse := by
          rw [trimRight, dropWhile_eq_drop isJsWs M.reverse, ← hk2def]
      _ = M.take (M.length - k2) := reverse_drop_reverse M k2
      _ = ((text.drop (cs + k)).take (ce - cs - k)).take (M.length - k2) := by
          rw [← hML]
      _ = (text.drop (cs + k)).take (M.length - k2) := by
          rw [List.take_take]
          congr 1
          rw [hMlen]
          omega
  refine ⟨cs + k, cs + k + (M.length - k2), by omega, ?_, ?_, ?_⟩
  · rw [hMlen]
    omega
  · rw [hMlen]
    omega
  · rw [hcore]
    congr 1
    omega

/-- C7 counterexample: for the text "ab " with match span [2,3) — a span
whose character is whitespace — the trimmed core "ab" is not a substring
of the input that contains the span: trimming removed the matched
character itself, so the claim's excerpt invariant fails for arbitrary
spans. -/
theorem C7_cx_whitespace_span :
    getContext ("ab ".toList) 2 3 150 = "ab".toList ∧
    ¬ ∃ i j, i ≤ 2 ∧ 3 ≤ j ∧ j ≤ ("ab ".toList).length ∧
      jsTrim ((("ab ".toList).drop 0).take 3) = (("ab ".toList).drop i).take (j - i) := by
  constructor
  · decide
  · rintro ⟨i, j, hi, hj1, hj2, he⟩
    have hlen : ("ab ".toList).length = 3 := by decide
    rw [hlen] at hj2
    interval_cases j
    interval_cases i <;> revert he <;> decide

/-- C7 witness: the window equation and span-containing core at the
concrete text "hello world" with match span [6,11) and radius 150. -/
theorem C7_getContext_window_w :
    getContext ("hello world".toList) 6 11 150 =
      (if 0 < 6 - 150 then dots else []) ++
        jsTrim ((("hello world".toList).drop (6 - 150)).take
          (min ("hello world".toList).length (11 + 150) - (6 - 150))) ++
        (if min ("hello world".toList).length (11 + 150) <
            ("hello world".toList).length then dots else []) ∧
    ∃ i j, i ≤ 6 ∧ 11 ≤ j ∧ j ≤ ("hello world".toList).length ∧
      jsTrim ((("hello world".toList).drop (6 - 150)).take
        (min ("hello world".toList).length (11 + 150) - (6 - 150))) =
        (("hello world".toList).drop i).take (j - i) :=
  C7_getContext_window ("hello world".toList) 6 11 150 (by decide) (by decide)
    (by decide) (by decide)
